import Mathlib

/-!
Verification development for the layout-resolution and event-routing core of
the limn UI toolkit.  The constraint-store wrapper `LimnSolver` is embedded
from `src/layout/solver.rs`; the event dispatcher is embedded from
`src/ui/mod.rs`.  The external cassowary solver, the widget graph
(`ui/graph.rs`) and the layout builder types are not part of the given
sources and are modelled from the specification, as noted on each such
definition.
-/

/-- Identifier of one scalar layout variable (cassowary `Variable`). -/
abbrev VarId := Nat

/-- Opaque widget identifier (`resources::WidgetId`). -/
abbrev WidgetId := Nat

/-- Scalar values.  The Rust code computes with `f64`; every value and
every computation the claims exercise is integral and exact, so scalars
are embedded as integers. -/
abbrev Value := Int

/-- Comparator of a constraint (`cassowary::RelationalOperator`, restricted
to the three comparators the spec names). -/
inductive RelOp where
  | le
  | ge
  | eq
deriving DecidableEq, Repr

/-- One term of a linear expression: a variable with a coefficient. -/
structure Term where
  var : VarId
  coeff : Value
deriving DecidableEq, Repr

/-- Embedded constraint: a linear expression (terms plus constant), a
comparator and a strength.  The Rust `Constraint` is reference-comparable;
the field `cid` stands for that reference identity, so two structurally
identical registrations differ in `cid`. -/
structure Constraint where
  cid : Nat
  terms : List Term
  constant : Value
  op : RelOp
  strength : Value
deriving DecidableEq, Repr

/-- Strength of `cassowary::strength::WEAK`. -/
def WEAK : Value := 1

/-- Strength of `cassowary::strength::MEDIUM`. -/
def MEDIUM : Value := 1000

/-- Strength of `cassowary::strength::STRONG`. -/
def STRONG : Value := 1000000

/-- Strength of `cassowary::strength::REQUIRED`. -/
def REQUIRED : Value := 1001001000

/-- Association-list lookup, embedding `HashMap::get`. -/
def findA {α β : Type} [DecidableEq α] : List (α × β) → α → Option β
  | [], _ => none
  | (k, v) :: rest, key => if k = key then some v else findA rest key

/-- Association-list removal of a key, embedding `HashMap::remove`. -/
def eraseA {α β : Type} [DecidableEq α] (m : List (α × β)) (key : α) :
    List (α × β) :=
  m.filter (fun kv => decide (kv.1 ≠ key))

/-- Association-list insertion replacing any previous binding, embedding
`HashMap::insert`. -/
def insertA {α β : Type} [DecidableEq α] (m : List (α × β)) (key : α)
    (v : β) : List (α × β) :=
  (key, v) :: eraseA m key

/-- Set-style insertion into a list, embedding `HashSet::insert`. -/
def insertS {α : Type} [DecidableEq α] (s : List α) (a : α) : List α :=
  if a ∈ s then s else s ++ [a]

/-- Set-style removal from a list, embedding `HashSet::remove`. -/
def removeS {α : Type} [DecidableEq α] (s : List α) (a : α) : List α :=
  s.filter (fun b => decide (b ≠ a))

/-- Errors of the external cassowary solver operations. -/
inductive CasError where
  | duplicateConstraint
  | unsatisfiableConstraint
  | unknownConstraint
  | duplicateEditVariable
  | badRequiredStrength
  | unknownEditVariable
deriving DecidableEq, Repr

/-- Modelled from the spec: state of the external incremental cassowary
solver (spec section 3 and glossary).  It records the registered
constraints in insertion order, the registered edit variables with their
strengths, the last suggested value of each edit variable, and the snapshot
of variable values at the previous `fetch_changes` call (missing entries
read as the initial value 0). -/
structure CasSolver where
  constraints : List Constraint
  editVars : List (VarId × Value)
  suggestions : List (VarId × Value)
  lastValues : List (VarId × Value)
deriving DecidableEq, Repr

/-- Modelled from the spec: the freshly constructed solver is empty. -/
def CasSolver.new : CasSolver :=
  { constraints := [], editVars := [], suggestions := [], lastValues := [] }

/-- Recognizes a required single-variable equality `a * v + k = 0` and
returns the variable together with its forced value. -/
def singleEq (c : Constraint) : Option (VarId × Value) :=
  match c.terms with
  | [t] =>
      if c.op = RelOp.eq ∧ REQUIRED ≤ c.strength ∧ t.coeff ≠ 0 then
        some (t.var, -c.constant / t.coeff)
      else none
  | _ => none

/-- Modelled from the spec: a new constraint conflicts with the existing
required constraints (spec section 7, `UnsatisfiableConstraint`).  The
check is restricted to required single-variable equalities forcing two
different values for the same variable, which covers the constraint shapes
exercised here. -/
def CasSolver.unsatisfiable (s : CasSolver) (c : Constraint) : Bool :=
  match singleEq c with
  | some (v, x) =>
      s.constraints.any (fun c2 =>
        match singleEq c2 with
        | some (v2, x2) => v == v2 && decide (x ≠ x2)
        | none => false)
  | none => false

/-- Modelled from the spec: `cassowary::Solver::has_constraint`. -/
def CasSolver.has_constraint (s : CasSolver) (c : Constraint) : Bool :=
  decide (c ∈ s.constraints)

/-- Modelled from the spec: `cassowary::Solver::has_edit_variable`. -/
def CasSolver.has_edit_variable (s : CasSolver) (v : VarId) : Bool :=
  (findA s.editVars v).isSome

/-- Modelled from the spec: `cassowary::Solver::add_constraint` registers a
constraint, rejecting duplicates and constraints that conflict with
existing required constraints. -/
def CasSolver.add_constraint (s : CasSolver) (c : Constraint) :
    Except CasError CasSolver :=
  if c ∈ s.constraints then Except.error CasError.duplicateConstraint
  else if s.unsatisfiable c then
    Except.error CasError.unsatisfiableConstraint
  else Except.ok { s with constraints := s.constraints ++ [c] }

/-- Modelled from the spec: `cassowary::Solver::remove_constraint` removes
a registered constraint and reports `UnknownConstraint` otherwise. -/
def CasSolver.remove_constraint (s : CasSolver) (c : Constraint) :
    Except CasError CasSolver :=
  if c ∈ s.constraints then
    Except.ok
      { s with constraints := s.constraints.filter (fun c2 => decide (c2 ≠ c)) }
  else Except.error CasError.unknownConstraint

/-- Modelled from the spec: `cassowary::Solver::add_edit_variable` rejects
already registered variables and required strength. -/
def CasSolver.add_edit_variable (s : CasSolver) (v : VarId) (str : Value) :
    Except CasError CasSolver :=
  if s.has_edit_variable v then Except.error CasError.duplicateEditVariable
  else if REQUIRED ≤ str then Except.error CasError.badRequiredStrength
  else Except.ok { s with editVars := insertA s.editVars v str }

/-- Modelled from the spec: `cassowary::Solver::suggest_value` records a
suggestion for a registered edit variable. -/
def CasSolver.suggest_value (s : CasSolver) (v : VarId) (val : Value) :
    Except CasError CasSolver :=
  if s.has_edit_variable v then
    Except.ok { s with suggestions := insertA s.suggestions v val }
  else Except.error CasError.unknownEditVariable

/-- First resolution pass: the value of a variable that is directly pinned,
either by a suggestion to an edit variable or by a required
single-variable equality. -/
def CasSolver.resolve0 (s : CasSolver) (v : VarId) : Option Value :=
  match findA s.suggestions v with
  | some x => some x
  | none => s.constraints.findSome? (fun c =>
      (singleEq c).bind (fun p => if p.1 == v then some p.2 else none))

/-- Solves a required equality constraint for variable `v` when every other
term of the constraint is pinned by the first resolution pass. -/
def CasSolver.solveOne (s : CasSolver) (c : Constraint) (v : VarId) :
    Option Value :=
  if c.op = RelOp.eq ∧ REQUIRED ≤ c.strength then
    match c.terms.filter (fun t => t.var == v),
        (c.terms.filter (fun t => t.var != v)).mapM
          (fun t => (s.resolve0 t.var).map (fun x => t.coeff * x)) with
    | [t], some vals =>
        if t.coeff ≠ 0 then some ((-c.constant - vals.sum) / t.coeff)
        else none
    | _, _ => none
  else none

/-- Modelled from the spec: resolved value of a variable (spec section 3,
"resolved values are obtained from the solver").  Restricted to the
constraint shapes exercised here: suggestion-valued edit variables and
required equalities, propagated once; unresolved variables read 0. -/
def CasSolver.resolveVal (s : CasSolver) (v : VarId) : Value :=
  match s.resolve0 v with
  | some x => x
  | none =>
      match s.constraints.findSome? (fun c => s.solveOne c v) with
      | some x => x
      | none => 0

/-- Variables known to the solver: every variable occurring in a registered
constraint or registered as an edit variable. -/
def CasSolver.knownVars (s : CasSolver) : List VarId :=
  ((s.constraints.map (fun c => c.terms.map Term.var)).flatten ++
    s.editVars.map Prod.fst).dedup

/-- Modelled from the spec: `cassowary::Solver::fetch_changes` returns the
variables whose resolved value differs from the snapshot taken at the
previous fetch, together with their new values, and updates the
snapshot. -/
def CasSolver.fetch_changes (s : CasSolver) :
    List (VarId × Value) × CasSolver :=
  let vars := s.knownVars
  let changed := vars.filter
    (fun v => decide (s.resolveVal v ≠ (findA s.lastValues v).getD 0))
  (changed.map (fun v => (v, s.resolveVal v)),
    { s with lastValues :=
        vars.foldl (fun m v => insertA m v (s.resolveVal v)) s.lastValues })

/-- Modelled from the spec: the `layout::LayoutVars` boundary variables of
one widget (spec section 3; the `layout` module is not among the given
sources). -/
structure LayoutVars where
  left : VarId
  top : VarId
  right : VarId
  bottom : VarId
  width : VarId
  height : VarId
deriving DecidableEq, Repr

/-- Widget as seen by the solver wrapper: its id and its layout variables.
The debug name only feeds the global diagnostic name registry, which is
irrelevant to the claims and omitted. -/
structure Widget where
  id : WidgetId
  layout : LayoutVars
deriving DecidableEq, Repr

/-- Modelled from the spec: one edit variable of a `layout::LayoutUpdate`,
carrying the variable, its strength and its suggested value (spec
section 3, `EditVariable`; usage in `update_from_builder`). -/
structure EditVariable where
  var : VarId
  strength : Value
  val : Value
deriving DecidableEq, Repr

/-- Modelled from the spec: `layout::LayoutUpdate`, the batch a widget
builder hands to the solver wrapper: edit variables and constraints
(usage in `LimnSolver::update_from_builder`). -/
structure LayoutUpdate where
  edit_vars : List EditVariable
  constraints : List Constraint
deriving DecidableEq, Repr

/-- State of `layout::solver::LimnSolver`: the wrapped cassowary solver and
the indices `var_map` (variable to constraint set), `constraint_map`
(constraint to variable list), `widget_map` (variable to owning widget) and
the insertion-ordered debug constraint list.  The `events` field records
the `LayoutChanged` batches pushed by `check_changes`, in order. -/
structure LimnSolver where
  solver : CasSolver
  var_map : List (VarId × List Constraint)
  constraint_map : List (Constraint × List VarId)
  widget_map : List (VarId × WidgetId)
  debug_constraint_list : List Constraint
  events : List (List (WidgetId × VarId × Value))
deriving DecidableEq, Repr

/-- Embeds `LimnSolver::new`. -/
def LimnSolver.new : LimnSolver :=
  { solver := CasSolver.new, var_map := [], constraint_map := [],
    widget_map := [], debug_constraint_list := [], events := [] }

/-- Constraint set currently indexed under a variable (empty when the
variable has no entry in `var_map`). -/
def LimnSolver.varMapSet (s : LimnSolver) (v : VarId) : List Constraint :=
  (findA s.var_map v).getD []

/-- Variable list currently recorded for a constraint in
`constraint_map`. -/
def LimnSolver.cmapVars (s : LimnSolver) (c : Constraint) : List VarId :=
  (findA s.constraint_map c).getD []

/-- Embeds the filtering loop of `LimnSolver::check_changes`: keep, in
order, the `(widget, variable, value)` triples of the changed variables
that are owned by a widget according to `widget_map`; unowned variables
are dropped silently. -/
def wchangesOf (wm : List (VarId × WidgetId))
    (changes : List (VarId × Value)) : List (WidgetId × VarId × Value) :=
  changes.foldl
    (fun acc change =>
      match findA wm change.1 with
      | some widgetId => acc ++ [(widgetId, change.1, change.2)]
      | none => acc) []

/-- Embeds `LimnSolver::check_changes`: fetch the changed variables from
the solver and, when that raw list is non-empty, push one `LayoutChanged`
event holding the owned `(widget, variable, value)` triples. -/
def LimnSolver.check_changes (s : LimnSolver) : LimnSolver :=
  let fetched := s.solver.fetch_changes
  let s1 := { s with solver := fetched.2 }
  if fetched.1.length > 0 then
    { s1 with events := s1.events ++ [wchangesOf s1.widget_map fetched.1] }
  else s1

/-- Embeds the private `LimnSolver::add_constraint`: record the constraint
in the debug list, then add it to the solver; the `expect` there turns a
solver error into a panic, modelled as `none`. -/
def LimnSolver.add_constraint (s : LimnSolver) (c : Constraint) :
    Option LimnSolver :=
  let s1 := { s with debug_constraint_list :=
    if c ∈ s.debug_constraint_list then s.debug_constraint_list
    else s.debug_constraint_list ++ [c] }
  match s1.solver.add_constraint c with
  | Except.ok solver2 => some { s1 with solver := solver2 }
  | Except.error _ => none

/-- Embeds the edit-variable step of `LimnSolver::update_from_builder`:
register the variable unless the solver already has it as an edit
variable, then suggest its value; the `unwrap`s are modelled as `none`. -/
def processEditVar (sv : CasSolver) (ev : EditVariable) :
    Option CasSolver :=
  let step1 :=
    if sv.has_edit_variable ev.var then some sv
    else (sv.add_edit_variable ev.var ev.strength).toOption
  step1.bind (fun sv1 => (sv1.suggest_value ev.var ev.val).toOption)

/-- Folds `processEditVar` over the edit-variable list of a layout
update. -/
def processEditVars (sv : CasSolver) (l : List EditVariable) :
    Option CasSolver :=
  l.foldlM processEditVar sv

/-- Indexing step of the constraint loop of `update_from_builder`: for one
term, insert the constraint into the term variable's constraint set and
append the variable to the constraint's variable list. -/
def indexTerm (c : Constraint)
    (acc : List (VarId × List Constraint) × List VarId) (t : Term) :
    List (VarId × List Constraint) × List VarId :=
  (insertA acc.1 t.var (insertS ((findA acc.1 t.var).getD []) c),
    acc.2 ++ [t.var])

/-- Embeds one iteration of the constraint loop of
`LimnSolver::update_from_builder`: add the constraint, then register it in
`var_map` (per term variable) and `constraint_map`. -/
def processConstraint (s : LimnSolver) (c : Constraint) :
    Option LimnSolver :=
  (s.add_constraint c).map (fun s1 =>
    let folded := c.terms.foldl (indexTerm c)
      (s1.var_map, (findA s1.constraint_map c).getD [])
    let cmap2 := insertA s1.constraint_map c folded.2
    { s1 with var_map := folded.1, constraint_map := cmap2 })

/-- Embeds `LimnSolver::update_from_builder`: process the edit variables,
then the constraints, then run change detection. -/
def LimnSolver.update_from_builder (s : LimnSolver) (lu : LayoutUpdate) :
    Option LimnSolver :=
  (processEditVars s.solver lu.edit_vars).bind (fun sv =>
    (lu.constraints.foldlM processConstraint { s with solver := sv }).map
      LimnSolver.check_changes)

/-- Embeds `LimnSolver::add_widget`: record the widget as owner of its
`left`, `top`, `width` and `height` variables in `widget_map`, then apply
the layout update (the debug-name registration only feeds the diagnostic
name registry and is omitted). -/
def LimnSolver.add_widget (s : LimnSolver) (w : Widget)
    (lu : LayoutUpdate) : Option LimnSolver :=
  let wm1 := insertA s.widget_map w.layout.left w.id
  let wm2 := insertA wm1 w.layout.top w.id
  let wm3 := insertA wm2 w.layout.width w.id
  let wm4 := insertA wm3 w.layout.height w.id
  let s1 := { s with widget_map := wm4 }
  s1.update_from_builder lu

/-- Embeds the body of the inner loop of `LimnSolver::remove_widget` for
one constraint of a taken constraint set: if the solver still has the
constraint, remove it from the debug list and the solver, then strip it
from the constraint sets of every variable recorded for it in
`constraint_map`.  The solver removal is guarded by `has_constraint`, so
the `unwrap` in the source cannot fire; the second component accumulates
the constraints actually removed from the solver. -/
def cleanupConstraint (acc : LimnSolver × List Constraint)
    (c : Constraint) : LimnSolver × List Constraint :=
  let s := acc.1
  if s.solver.has_constraint c then
    let dbg2 := s.debug_constraint_list.filter (fun c2 => decide (c2 ≠ c))
    let cons2 := s.solver.constraints.filter (fun c2 => decide (c2 ≠ c))
    let s1 := { s with debug_constraint_list := dbg2,
                       solver := { s.solver with constraints := cons2 } }
    let s2 :=
      match findA s1.constraint_map c with
      | some varList =>
          let vm2 := varList.foldl
            (fun m v =>
              match findA m v with
              | some cset => insertA m v (removeS cset c)
              | none => m) s1.var_map
          { s1 with var_map := vm2 }
      | none => s1
    (s2, acc.2 ++ [c])
  else acc

/-- Embeds one iteration of the outer loop of `LimnSolver::remove_widget`
for one boundary variable: take the variable's constraint-set entry out of
`var_map`, clean up each constraint found there, then drop the variable
from `widget_map`. -/
def removeWidgetVar (acc : LimnSolver × List Constraint) (v : VarId) :
    LimnSolver × List Constraint :=
  let cleaned :=
    match findA acc.1.var_map v with
    | some cset =>
        cset.foldl cleanupConstraint
          ({ acc.1 with var_map := eraseA acc.1.var_map v }, acc.2)
    | none => acc
  ({ cleaned.1 with widget_map := eraseA cleaned.1.widget_map v },
    cleaned.2)

/-- Embeds `LimnSolver::remove_widget` over the four boundary variables,
additionally returning the list of constraints removed from the solver, in
removal order. -/
def LimnSolver.remove_widget_tr (s : LimnSolver) (vars : LayoutVars) :
    LimnSolver × List Constraint :=
  let folded := [vars.left, vars.top, vars.right, vars.bottom].foldl
    removeWidgetVar (s, [])
  (folded.1.check_changes, folded.2)

/-- Embeds `LimnSolver::remove_widget`. -/
def LimnSolver.remove_widget (s : LimnSolver) (vars : LayoutVars) :
    LimnSolver :=
  (s.remove_widget_tr vars).1

/-- Embeds `LimnSolver::update_solver`: apply a batch of direct solver
edits, then run change detection; `none` from the mutator models a panic
inside the closure (the closures in the sources unwrap solver errors). -/
def LimnSolver.update_solver (s : LimnSolver)
    (f : CasSolver → Option CasSolver) : Option LimnSolver :=
  (f s.solver).map (fun sv => LimnSolver.check_changes { s with solver := sv })

/-- States reachable from the fresh solver wrapper by successful
`add_widget` calls. -/
inductive Reached : LimnSolver → Prop where
  | init : Reached LimnSolver.new
  | step {s s1 : LimnSolver} (w : Widget) (lu : LayoutUpdate) :
      Reached s → s.add_widget w lu = some s1 → Reached s1

/-- Modelled from the spec: the widget tree owned by `ui::graph` (which is
not among the given sources): a node carries a widget id and its children
in insertion order (spec section 3, tree node). -/
inductive WTree where
  | node : WidgetId → List WTree → WTree
deriving Repr

/-- Widget id of the root node of a tree. -/
def WTree.wid : WTree → WidgetId
  | WTree.node i _ => i

/-- Child subtrees of the root node of a tree, in insertion order. -/
def WTree.kids : WTree → List WTree
  | WTree.node _ cs => cs

mutual

/-- Modelled from the spec: pre-order traversal of a tree (spec
section 4.2 `traverse`): a node before its children, children in insertion
order.  This is also the visit order of the `ui::graph` depth-first
iterator used by `Target::SubTree`: the petgraph stack iterator pushes
neighbours in reverse insertion order and pops the most recent, visiting
children in insertion order. -/
def preorder : WTree → List WidgetId
  | WTree.node i cs => i :: preorderList cs

/-- Pre-order traversal of a forest, left to right. -/
def preorderList : List WTree → List WidgetId
  | [] => []
  | t :: ts => preorder t ++ preorderList ts

end

mutual

/-- Modelled from the spec: depth of a tree, the length in edges of its
longest root-to-leaf path (spec section 8, bubble termination). -/
def depth : WTree → Nat
  | WTree.node _ cs => depthList cs

/-- One more than the largest depth of a tree in the forest, and zero for
the empty forest. -/
def depthList : List WTree → Nat
  | [] => 0
  | t :: ts => max (depth t + 1) (depthList ts)

end

mutual

/-- Modelled from the spec: the path of widget ids from the root of `t`
down to the node with id `i`, inclusive on both ends, or `none` when `i`
does not occur in `t`.  Reversed, this is the parent chain the
`Target::BubbleUp` loop walks via `graph.parent`. -/
def pathTo : WTree → WidgetId → Option (List WidgetId)
  | WTree.node j cs, i =>
      if j = i then some [j]
      else
        match pathToList cs i with
        | some p => some (j :: p)
        | none => none

/-- Path search across a forest, trying the trees left to right. -/
def pathToList : List WTree → WidgetId → Option (List WidgetId)
  | [], _ => none
  | t :: ts, i =>
      match pathTo t i with
      | some p => some p
      | none => pathToList ts i

end

mutual

/-- Modelled from the spec: the subtree of `t` rooted at the node with id
`i` (spec section 4.2 `traverse`, used by `Target::SubTree`). -/
def subtreeAt : WTree → WidgetId → Option WTree
  | WTree.node j cs, i =>
      if j = i then some (WTree.node j cs) else subtreeAtList cs i

/-- Subtree search across a forest, trying the trees left to right. -/
def subtreeAtList : List WTree → WidgetId → Option WTree
  | [], _ => none
  | t :: ts, i =>
      match subtreeAt t i with
      | some st => some st
      | none => subtreeAtList ts i

end

/-- Event targets of `event::Target` as matched in `Ui::handle_event`; the
`ui` case stands for the addresses the wildcard arm ignores. -/
inductive Target where
  | widget : WidgetId → Target
  | child : WidgetId → Target
  | subTree : WidgetId → Target
  | bubbleUp : WidgetId → Target
  | ui : Target

/-- Embeds the `Target::BubbleUp` loop of `Ui::handle_event` along the
chain from the addressed widget to the root: deliver to the head; stop
when its handler reports handled, otherwise continue with the parent. -/
def bubbleDeliver (chain : List WidgetId) (handled : WidgetId → Bool) :
    List WidgetId :=
  match chain with
  | [] => []
  | i :: rest => if handled i then [i] else i :: bubbleDeliver rest handled

/-- Children of the node with id `i` as the `ui::graph` children iterator
yields them.  Modelled from the spec and the source comment at
`src/ui/mod.rs` line 134: petgraph neighbours iterate in reverse order of
insertion, so the iterator yields the last-inserted child first. -/
def childrenIter (t : WTree) (i : WidgetId) : List WidgetId :=
  match subtreeAt t i with
  | some st => (st.kids.map WTree.wid).reverse
  | none => []

/-- Embeds `Ui::handle_event`: the list of widget ids the event is
delivered to, in delivery order, for a dispatch with target `tgt` on the
widget tree `t` when the per-widget handlers report handled according to
`handled` (the flag is only consulted by the `BubbleUp` arm, exactly as in
the source). -/
def handleEvent (t : WTree) (handled : WidgetId → Bool) (tgt : Target) :
    List WidgetId :=
  match tgt with
  | Target.widget i => [i]
  | Target.child i =>
      match (childrenIter t i).head? with
      | some c => [c]
      | none => []
  | Target.subTree i =>
      match subtreeAt t i with
      | some st => preorder st
      | none => []
  | Target.bubbleUp i =>
      match pathTo t i with
      | some p => bubbleDeliver p.reverse handled
      | none => []
  | Target.ui => []

mutual

/-- A root-to-node path in a tree is at most one longer than the tree
depth. -/
theorem pathTo_length_le (t : WTree) (i : WidgetId) (p : List WidgetId)
    (h : pathTo t i = some p) : p.length ≤ depth t + 1 := by
  match t with
  | WTree.node j cs =>
    unfold pathTo at h
    by_cases hji : j = i
    · simp [hji] at h
      subst h
      simp [depth]
    · simp [hji] at h
      cases hpl : pathToList cs i with
      | none => rw [hpl] at h; simp at h
      | some q =>
          rw [hpl] at h
          simp at h
          subst h
          have := pathToList_length_le cs i q hpl
          simp [depth]
          omega

/-- Forest version of `pathTo_length_le`. -/
theorem pathToList_length_le (ts : List WTree) (i : WidgetId)
    (p : List WidgetId) (h : pathToList ts i = some p) :
    p.length ≤ depthList ts := by
  match ts with
  | [] => simp [pathToList] at h
  | t :: ts2 =>
    unfold pathToList at h
    cases hpt : pathTo t i with
    | some q =>
        rw [hpt] at h
        injection h with h2
        subst h2
        have := pathTo_length_le t i q hpt
        simp [depthList]
        omega
    | none =>
        rw [hpt] at h
        have := pathToList_length_le ts2 i p h
        simp [depthList]
        omega

end

mutual

/-- The pre-order listing of a subtree is a sublist of the pre-order
listing of the whole tree. -/
theorem subtreeAt_preorder_sublist (t : WTree) (i : WidgetId) (st : WTree)
    (h : subtreeAt t i = some st) :
    List.Sublist (preorder st) (preorder t) := by
  match t with
  | WTree.node j cs =>
    unfold subtreeAt at h
    by_cases hji : j = i
    · subst hji
      simp at h
      rw [← h]
    · simp [hji] at h
      have := subtreeAtList_preorder_sublist cs i st h
      exact List.Sublist.cons j this

/-- Forest version of `subtreeAt_preorder_sublist`. -/
theorem subtreeAtList_preorder_sublist (ts : List WTree) (i : WidgetId)
    (st : WTree) (h : subtreeAtList ts i = some st) :
    List.Sublist (preorder st) (preorderList ts) := by
  match ts with
  | [] => simp [subtreeAtList] at h
  | t :: ts2 =>
    unfold subtreeAtList at h
    cases hst : subtreeAt t i with
    | some st2 =>
        rw [hst] at h
        injection h with h2
        subst h2
        have := subtreeAt_preorder_sublist t i st2 hst
        exact this.trans (List.sublist_append_left _ _)
    | none =>
        rw [hst] at h
        have := subtreeAtList_preorder_sublist ts2 i st h
        show List.Sublist (preorder st) (preorder t ++ preorderList ts2)
        exact this.trans (List.sublist_append_right _ _)

end

/-- The bubble loop delivers to the unhandled elements of the chain up to
and including the first element whose handler reports handled. -/
theorem bubbleDeliver_eq (handled : WidgetId → Bool) :
    ∀ chain : List WidgetId,
      bubbleDeliver chain handled =
        chain.takeWhile (fun j => !(handled j)) ++
          (chain.find? handled).toList := by
  intro chain
  induction chain with
  | nil => rfl
  | cons i rest ih =>
      cases hhi : handled i with
      | true => simp [bubbleDeliver, hhi, List.takeWhile_cons, List.find?_cons]
      | false => simp [bubbleDeliver, hhi, List.takeWhile_cons, List.find?_cons, ih]

/-- The bubble loop performs at most one delivery per element of the
chain. -/
theorem bubbleDeliver_length_le (handled : WidgetId → Bool) :
    ∀ chain : List WidgetId,
      (bubbleDeliver chain handled).length ≤ chain.length := by
  intro chain
  induction chain with
  | nil => simp [bubbleDeliver]
  | cons i rest ih =>
      cases hhi : handled i with
      | true => simp [bubbleDeliver, hhi]
      | false =>
          simp [bubbleDeliver, hhi]
          omega

/-- Claim C7: dispatching with `BubbleUp(id)` on a tree of depth D performs
at most D+1 delivery attempts and terminates; it delivers along the chain
from the addressed widget to the root, stopping exactly at the first node
of that chain whose handler reports handled, and when no node reports
handled the chain ends after the root is tried (delivery equals the
unhandled prefix of the chain followed by the first handled node when one
exists). -/
theorem claim7_bubble_up (t : WTree) (i : WidgetId)
    (handled : WidgetId → Bool) (p : List WidgetId)
    (hp : pathTo t i = some p) :
    (handleEvent t handled (Target.bubbleUp i)).length ≤ depth t + 1 ∧
    handleEvent t handled (Target.bubbleUp i) =
      p.reverse.takeWhile (fun j => !(handled j)) ++
        (p.reverse.find? handled).toList := by
  have he : handleEvent t handled (Target.bubbleUp i) =
      bubbleDeliver p.reverse handled := by
    simp [handleEvent, hp]
  constructor
  · rw [he]
    have h1 := bubbleDeliver_length_le handled p.reverse
    have h2 := pathTo_length_le t i p hp
    simp at h1
    omega
  · rw [he, bubbleDeliver_eq]

/-- Example tree used by the dispatch witnesses: root 0 with children 1
and 4 in insertion order, node 1 with children 2 and 3. -/
def wexTree : WTree :=
  WTree.node 0 [WTree.node 1 [WTree.node 2 [], WTree.node 3 []],
    WTree.node 4 []]

/-- Witness for claim C7 at a concrete tree, widget and handler. -/
theorem claim7_bubble_up_witness :
    pathTo wexTree 2 = some [0, 1, 2] ∧
    ((handleEvent wexTree (fun j => j == 1) (Target.bubbleUp 2)).length ≤
        depth wexTree + 1 ∧
      handleEvent wexTree (fun j => j == 1) (Target.bubbleUp 2) =
        ([0, 1, 2] : List WidgetId).reverse.takeWhile
            (fun j => !((fun j2 : WidgetId => j2 == 1) j)) ++
          (([0, 1, 2] : List WidgetId).reverse.find?
            (fun j2 : WidgetId => j2 == 1)).toList) :=
  ⟨by decide, claim7_bubble_up wexTree 2 (fun j2 : WidgetId => j2 == 1)
    [0, 1, 2] (by decide)⟩

/-- Claim C8: dispatching with `Subtree(id)` delivers the event to every
node of the subtree rooted at `id` exactly once, in pre-order with
children in insertion order, and delivery is unconditional: the handled
flags never change the delivery list. -/
theorem claim8_subtree_delivery (t : WTree) (i : WidgetId) (st : WTree)
    (handled handled2 : WidgetId → Bool)
    (hst : subtreeAt t i = some st) (hnd : (preorder t).Nodup) :
    handleEvent t handled (Target.subTree i) = preorder st ∧
    (∀ j ∈ preorder st,
      (handleEvent t handled (Target.subTree i)).count j = 1) ∧
    handleEvent t handled (Target.subTree i) =
      handleEvent t handled2 (Target.subTree i) := by
  have he : handleEvent t handled (Target.subTree i) = preorder st := by
    simp [handleEvent, hst]
  refine ⟨he, ?_, by simp [handleEvent, hst]⟩
  intro j hj
  rw [he]
  have hsub := subtreeAt_preorder_sublist t i st hst
  have hnd2 : (preorder st).Nodup := hsub.nodup hnd
  exact List.count_eq_one_of_mem hnd2 hj

/-- Witness for claim C8 at a concrete tree and widget. -/
theorem claim8_subtree_delivery_witness :
    subtreeAt wexTree 1 = some (WTree.node 1 [WTree.node 2 [],
      WTree.node 3 []]) ∧
    (preorder wexTree).Nodup ∧
    (handleEvent wexTree (fun _ => true) (Target.subTree 1) =
        preorder (WTree.node 1 [WTree.node 2 [], WTree.node 3 []]) ∧
      (∀ j ∈ preorder (WTree.node 1 [WTree.node 2 [], WTree.node 3 []]),
        (handleEvent wexTree (fun _ => true) (Target.subTree 1)).count j =
          1) ∧
      handleEvent wexTree (fun _ => true) (Target.subTree 1) =
        handleEvent wexTree (fun _ => false) (Target.subTree 1)) :=
  ⟨by rfl, by decide,
    claim8_subtree_delivery wexTree 1
      (WTree.node 1 [WTree.node 2 [], WTree.node 3 []])
      (fun _ => true) (fun _ => false) (by rfl) (by decide)⟩

/-- Concrete tree for claim C9: root 0 with children 1 and 2, inserted in
that order. -/
def c9tree : WTree := WTree.node 0 [WTree.node 1 [], WTree.node 2 []]

/-- Counterexample to claim C9 as stated: on a root with children 1 and 2
attached in that order, dispatching with `FirstChild(0)` delivers to
widget 2, the most recently attached child, not to the earliest-attached
child 1 (the children iterator yields reverse insertion order, see the
comment at `src/ui/mod.rs` line 134). -/
theorem claim9_counterexample :
    handleEvent c9tree (fun _ => false) (Target.child 0) = [2] ∧
    (2 : WidgetId) ≠ 1 := by
  constructor
  · rfl
  · decide

/-- Claim C9 as amended: dispatching with `FirstChild(id)` delivers the
event only to the last child of `id` in insertion order (the most recently
attached child, the head of the reverse-insertion-order children
iterator); for a widget with no children it is a no-op. -/
theorem claim9_child_dispatch (t : WTree) (i : WidgetId) (st : WTree)
    (handled : WidgetId → Bool) (hst : subtreeAt t i = some st) :
    handleEvent t handled (Target.child i) =
      ((st.kids.map WTree.wid).getLast?).toList ∧
    (st.kids = [] → handleEvent t handled (Target.child i) = []) := by
  have he : handleEvent t handled (Target.child i) =
      ((st.kids.map WTree.wid).getLast?).toList := by
    simp [handleEvent, childrenIter, hst]
    cases st.kids.getLast? with
    | none => rfl
    | some c => rfl
  exact ⟨he, fun hk => by simp [he, hk]⟩

/-- Witness for the amended claim C9 at a concrete tree. -/
theorem claim9_child_dispatch_witness :
    subtreeAt c9tree 0 = some c9tree ∧
    (handleEvent c9tree (fun _ => false) (Target.child 0) =
        ((c9tree.kids.map WTree.wid).getLast?).toList ∧
      (c9tree.kids = [] →
        handleEvent c9tree (fun _ => false) (Target.child 0) = [])) :=
  ⟨by rfl, claim9_child_dispatch c9tree 0 c9tree (fun _ => false) (by rfl)⟩

/-- Lookup after erasing the same key yields nothing. -/
theorem findA_eraseA_same {α β : Type} [DecidableEq α]
    (m : List (α × β)) (k : α) : findA (eraseA m k) k = none := by
  induction m with
  | nil => rfl
  | cons kv rest ih =>
      by_cases hk : kv.1 = k
      · simpa [eraseA, hk] using ih
      · simpa [eraseA, findA, hk] using ih

/-- Lookup after erasing a different key is unchanged. -/
theorem findA_eraseA_ne {α β : Type} [DecidableEq α]
    (m : List (α × β)) (k k2 : α) (h : k ≠ k2) :
    findA (eraseA m k) k2 = findA m k2 := by
  induction m with
  | nil => rfl
  | cons kv rest ih =>
      by_cases hk : kv.1 = k
      · simp [eraseA, List.filter_cons, findA, hk, h]
        simpa [eraseA] using ih
      · by_cases hk2 : kv.1 = k2
        · simp [eraseA, List.filter_cons, findA, hk, hk2, Ne.symm h]
        · simp [eraseA, List.filter_cons, findA, hk, hk2]
          simpa [eraseA] using ih

/-- Lookup after inserting the same key yields the inserted value. -/
theorem findA_insertA_same {α β : Type} [DecidableEq α]
    (m : List (α × β)) (k : α) (v : β) :
    findA (insertA m k v) k = some v := by
  simp [insertA, findA]

/-- Lookup after inserting a different key is unchanged. -/
theorem findA_insertA_ne {α β : Type} [DecidableEq α]
    (m : List (α × β)) (k k2 : α) (v : β) (h : k ≠ k2) :
    findA (insertA m k v) k2 = findA m k2 := by
  simp [insertA, findA, h]
  exact findA_eraseA_ne m k k2 h

/-- Required constraint pinning variable 1 to 0, as a widget builder would
produce for `left = 0`. -/
def cLeft0 : Constraint :=
  { cid := 0, terms := [{ var := 1, coeff := 1 }], constant := 0,
    op := RelOp.eq, strength := REQUIRED }

/-- Required constraint pinning variable 1 to 5, conflicting with
`cLeft0`. -/
def cLeft5 : Constraint :=
  { cid := 1, terms := [{ var := 1, coeff := 1 }], constant := -5,
    op := RelOp.eq, strength := REQUIRED }

/-- State reached by registering `cLeft0` through
`update_from_builder`. -/
def c4state : LimnSolver :=
  (LimnSolver.new.update_from_builder
    { edit_vars := [], constraints := [cLeft0] }).getD LimnSolver.new

/-- Counterexample to claim C4 as stated: adding the required constraint
`cLeft5`, which conflicts with the registered required constraint
`cLeft0`, makes `LimnSolver::add_constraint` evaluate
`solver.add_constraint(..).expect(..)` on an `UnsatisfiableConstraint`
error, i.e. panic.  In the embedding the panic is the `none` result: the
failure is a process abort, not the typed error result the claim asserts
(the enclosing operation returns no error value a caller could match
on). -/
theorem claim4_counterexample :
    (LimnSolver.new.update_from_builder
      { edit_vars := [], constraints := [cLeft0] }).isSome = true ∧
    CasSolver.add_constraint c4state.solver cLeft5 =
      Except.error CasError.unsatisfiableConstraint ∧
    LimnSolver.add_constraint c4state cLeft5 = none := by
  refine ⟨by decide, by rfl, by rfl⟩

/-- Claim C4 as amended: a constraint addition that conflicts with
existing required constraints is surfaced as a hard failure (a panic,
i.e. process abort) at the call site that attempted the add, and the
constraint is never silently dropped or auto-relaxed: whenever the add
returns at all, the constraint was appended to the solver unchanged. -/
theorem claim4_unsat_aborts (s : LimnSolver) (c : Constraint) :
    (s.solver.add_constraint c =
        Except.error CasError.unsatisfiableConstraint →
      LimnSolver.add_constraint s c = none) ∧
    (∀ s2, LimnSolver.add_constraint s c = some s2 →
      s2.solver.constraints = s.solver.constraints ++ [c]) := by
  constructor
  · intro h
    simp [LimnSolver.add_constraint, h]
  · intro s2 h2
    unfold LimnSolver.add_constraint at h2
    dsimp only at h2
    cases hac : CasSolver.add_constraint s.solver c with
    | error e => rw [hac] at h2; simp at h2
    | ok sv =>
        rw [hac] at h2
        simp at h2
        unfold CasSolver.add_constraint at hac
        by_cases h1 : c ∈ s.solver.constraints
        · simp [h1] at hac
        · by_cases hu : s.solver.unsatisfiable c = true
          · simp [h1, hu] at hac
          · simp [h1, hu] at hac
            rw [← h2]
            show sv.constraints = s.solver.constraints ++ [c]
            rw [← hac]

/-- Witness for the amended claim C4: the conflicting concrete add
aborts. -/
theorem claim4_unsat_aborts_witness :
    LimnSolver.add_constraint c4state cLeft5 = none :=
  (claim4_unsat_aborts c4state cLeft5).1 (by rfl)

/-- Processing an edit variable that is already registered only records
the suggestion. -/
theorem processEditVar_of_has (sv : CasSolver) (ev : EditVariable)
    (hh : sv.has_edit_variable ev.var = true) :
    processEditVar sv ev =
      some { sv with suggestions := insertA sv.suggestions ev.var ev.val } := by
  unfold processEditVar CasSolver.suggest_value
  simp [hh, Except.toOption]

/-- Processing an unregistered edit variable of sub-required strength
registers it and records the suggestion. -/
theorem processEditVar_of_fresh (sv : CasSolver) (ev : EditVariable)
    (hh : sv.has_edit_variable ev.var = false)
    (hs : ¬ REQUIRED ≤ ev.strength) :
    processEditVar sv ev =
      some { sv with
              editVars := insertA sv.editVars ev.var ev.strength,
              suggestions := insertA sv.suggestions ev.var ev.val } := by
  unfold processEditVar CasSolver.add_edit_variable CasSolver.suggest_value
  simp only [hh, Bool.false_eq_true, if_false, hs, if_true, if_false]
  simp [CasSolver.has_edit_variable, findA_insertA_same, hs, hh,
    Except.toOption]

/-- Per-step facts about `processEditVar`: the suggestion is always
recorded, registration is skipped for an already-registered variable, the
variable ends registered, registration is monotone, and the constraint
state of the solver is untouched. -/
theorem processEditVar_spec (sv : CasSolver) (ev : EditVariable)
    (sv2 : CasSolver) (h : processEditVar sv ev = some sv2) :
    findA sv2.suggestions ev.var = some ev.val ∧
    (sv.has_edit_variable ev.var = true → sv2.editVars = sv.editVars) ∧
    sv2.has_edit_variable ev.var = true ∧
    (∀ v, sv.has_edit_variable v = true → sv2.has_edit_variable v = true) ∧
    sv2.constraints = sv.constraints ∧
    sv2.lastValues = sv.lastValues := by
  by_cases hh : sv.has_edit_variable ev.var = true
  · rw [processEditVar_of_has sv ev hh] at h
    injection h with h2
    subst h2
    refine ⟨findA_insertA_same _ _ _, fun _ => rfl, hh, fun v hv => hv,
      rfl, rfl⟩
  · have hh2 : sv.has_edit_variable ev.var = false := by
      cases hb : sv.has_edit_variable ev.var
      · rfl
      · exact absurd hb hh
    by_cases hs : REQUIRED ≤ ev.strength
    · exfalso
      unfold processEditVar CasSolver.add_edit_variable at h
      simp [hh2, hs, Except.toOption] at h
    · rw [processEditVar_of_fresh sv ev hh2 hs] at h
      injection h with h2
      subst h2
      refine ⟨findA_insertA_same _ _ _, fun hc => absurd hc hh, ?_, ?_,
        rfl, rfl⟩
      · show (findA (insertA sv.editVars ev.var ev.strength) ev.var).isSome
          = true
        rw [findA_insertA_same]
        rfl
      · intro v hv
        show (findA (insertA sv.editVars ev.var ev.strength) v).isSome = true
        by_cases hvv : ev.var = v
        · rw [hvv, findA_insertA_same]; rfl
        · rw [findA_insertA_ne _ _ _ _ hvv]; exact hv

/-- After a successful run of `processEditVars`, every listed variable is
registered, and the constraint state is untouched. -/
theorem processEditVars_spec (l : List EditVariable) :
    ∀ sv sv2, processEditVars sv l = some sv2 →
      (∀ ev ∈ l, sv2.has_edit_variable ev.var = true) ∧
      (∀ v, sv.has_edit_variable v = true →
        sv2.has_edit_variable v = true) ∧
      sv2.constraints = sv.constraints ∧
      sv2.lastValues = sv.lastValues := by
  induction l with
  | nil =>
      intro sv sv2 h
      simp [processEditVars] at h
      subst h
      exact ⟨by simp, fun v hv => hv, rfl, rfl⟩
  | cons ev rest ih =>
      intro sv sv2 h
      unfold processEditVars at h
      rw [List.foldlM_cons] at h
      cases hev : processEditVar sv ev with
      | none => rw [hev] at h; simp at h
      | some sv1 =>
          rw [hev] at h
          simp only [Option.bind_eq_bind, Option.some_bind] at h
          have hstep := processEditVar_spec sv ev sv1 hev
          have hrest := ih sv1 sv2 h
          refine ⟨?_, ?_, ?_, ?_⟩
          · intro ev2 hev2
            cases List.mem_cons.mp hev2 with
            | inl heq => subst heq; exact hrest.2.1 ev2.var hstep.2.2.1
            | inr hmem => exact hrest.1 ev2 hmem
          · intro v hv
            exact hrest.2.1 v (hstep.2.2.2.1 v hv)
          · rw [hrest.2.2.1, hstep.2.2.2.2.1]
          · rw [hrest.2.2.2, hstep.2.2.2.2.2]

/-- Re-running `processEditVars` on a list whose variables are all
registered succeeds and leaves the registered edit-variable set
unchanged. -/
theorem processEditVars_stable (l : List EditVariable) :
    ∀ sv, (∀ ev ∈ l, sv.has_edit_variable ev.var = true) →
      (processEditVars sv l).isSome = true ∧
      ∀ sv2, processEditVars sv l = some sv2 →
        sv2.editVars = sv.editVars := by
  induction l with
  | nil =>
      intro sv hall
      refine ⟨rfl, ?_⟩
      intro sv2 h
      simp [processEditVars] at h
      rw [← h]
  | cons ev rest ih =>
      intro sv hall
      have hhead : sv.has_edit_variable ev.var = true :=
        hall ev (List.mem_cons_self ev rest)
      have hev := processEditVar_of_has sv ev hhead
      have hall2 : ∀ ev2 ∈ rest,
          CasSolver.has_edit_variable
            { sv with suggestions := insertA sv.suggestions ev.var ev.val }
            ev2.var = true := by
        intro ev2 hm
        exact hall ev2 (List.mem_cons_of_mem ev hm)
      have hrest := ih _ hall2
      constructor
      · show (List.foldlM processEditVar sv (ev :: rest)).isSome = true
        rw [List.foldlM_cons, hev]
        simp only [Option.bind_eq_bind, Option.some_bind]
        exact hrest.1
      · intro sv2 h
        unfold processEditVars at h
        rw [List.foldlM_cons, hev] at h
        simp only [Option.bind_eq_bind, Option.some_bind] at h
        exact hrest.2 sv2 h

/-- Claim C6: for every edit variable processed by `update_from_builder`,
registration with the solver happens only when the variable is not yet an
edit variable while the value suggestion is always applied, and processing
the same edit-variable list a second time succeeds and leaves the
edit-variable set of the solver exactly as it was after the first run. -/
theorem claim6_register_once (sv : CasSolver) (l : List EditVariable)
    (sv1 : CasSolver) (h : processEditVars sv l = some sv1) :
    (processEditVars sv1 l).map CasSolver.editVars = some sv1.editVars ∧
    (∀ sv0 ev sv2, processEditVar sv0 ev = some sv2 →
      findA sv2.suggestions ev.var = some ev.val ∧
      (sv0.has_edit_variable ev.var = true →
        sv2.editVars = sv0.editVars)) := by
  constructor
  · have hreg := (processEditVars_spec l sv sv1 h).1
    have hst := processEditVars_stable l sv1 hreg
    cases hps : processEditVars sv1 l with
    | none => rw [hps] at hst; simp at hst
    | some sv2 =>
        simp [hps]
        exact hst.2 sv2 hps
  · intro sv0 ev sv2 h2
    have hs := processEditVar_spec sv0 ev sv2 h2
    exact ⟨hs.1, hs.2.1⟩

/-- Edit-variable list used by the claim C6 witness. -/
def c6list : List EditVariable := [{ var := 9, strength := STRONG, val := 5 }]

/-- State after registering `c6list` once from the fresh solver. -/
def c6state : CasSolver :=
  (processEditVars CasSolver.new c6list).getD CasSolver.new

/-- Witness for claim C6 at a concrete edit-variable list. -/
theorem claim6_register_once_witness :
    processEditVars CasSolver.new c6list = some c6state ∧
    ((processEditVars c6state c6list).map CasSolver.editVars =
        some c6state.editVars ∧
      (∀ sv0 ev sv2, processEditVar sv0 ev = some sv2 →
        findA sv2.suggestions ev.var = some ev.val ∧
        (sv0.has_edit_variable ev.var = true →
          sv2.editVars = sv0.editVars))) :=
  ⟨by rfl, claim6_register_once CasSolver.new c6list c6state (by rfl)⟩

/-- Cleaning up a constraint that is no longer in the solver is a complete
no-op: the state and the removal trace are unchanged (the existence check
in `remove_widget` skips the body). -/
theorem cleanupConstraint_skip (s : LimnSolver) (tr : List Constraint)
    (c : Constraint) (h : c ∉ s.solver.constraints) :
    cleanupConstraint (s, tr) c = (s, tr) := by
  unfold cleanupConstraint
  simp [CasSolver.has_constraint, h]

/-- Cleaning up a constraint still present in the solver removes every
copy of it from the solver and appends it to the removal trace. -/
theorem cleanupConstraint_of_mem (s : LimnSolver) (tr : List Constraint)
    (c : Constraint) (hc : c ∈ s.solver.constraints) :
    (cleanupConstraint (s, tr) c).1.solver.constraints =
      s.solver.constraints.filter (fun c2 => decide (c2 ≠ c)) ∧
    (cleanupConstraint (s, tr) c).2 = tr ++ [c] := by
  unfold cleanupConstraint
  simp only [CasSolver.has_constraint, hc, decide_eq_true_eq, if_pos]
  cases hf : findA
      { s with
          debug_constraint_list :=
            s.debug_constraint_list.filter (fun c2 => decide (c2 ≠ c)),
          solver := { s.solver with constraints :=
            s.solver.constraints.filter (fun c2 => decide (c2 ≠ c)) }
        }.constraint_map c with
  | none => simp [hf]
  | some varList => simp [hf]

/-- Invariant carried through removal: the trace has no duplicates and
every traced constraint is gone from the solver. -/
def RemInv (acc : LimnSolver × List Constraint) : Prop :=
  acc.2.Nodup ∧ ∀ c ∈ acc.2, c ∉ acc.1.solver.constraints

/-- One cleanup step preserves the removal invariant. -/
theorem cleanupConstraint_rem_inv (acc : LimnSolver × List Constraint)
    (c : Constraint) (hP : RemInv acc) :
    RemInv (cleanupConstraint acc c) := by
  by_cases hc : c ∈ acc.1.solver.constraints
  · have hlem := cleanupConstraint_of_mem acc.1 acc.2 c hc
    constructor
    · rw [hlem.2]
      rw [List.nodup_append]
      refine ⟨hP.1, List.nodup_singleton c, ?_⟩
      intro a ha hb
      rw [List.mem_singleton] at hb
      subst hb
      exact hP.2 a ha hc
    · intro c2 hc2
      rw [hlem.2] at hc2
      rw [hlem.1]
      intro hmem
      rw [List.mem_filter] at hmem
      cases List.mem_append.mp hc2 with
      | inl htr => exact hP.2 c2 htr hmem.1
      | inr hsing =>
          rw [List.mem_singleton] at hsing
          subst hsing
          simp at hmem
  · rw [cleanupConstraint_skip acc.1 acc.2 c hc]
    exact hP

/-- Folding a function that preserves a predicate preserves it. -/
theorem foldl_preserves {α σ : Type} (P : σ → Prop) (f : σ → α → σ)
    (hf : ∀ s a, P s → P (f s a)) :
    ∀ (l : List α) (s : σ), P s → P (l.foldl f s) := by
  intro l
  induction l with
  | nil => intro s hs; exact hs
  | cons a rest ih =>
      intro s hs
      exact ih (f s a) (hf s a hs)

/-- One boundary-variable step of `remove_widget` preserves the removal
invariant. -/
theorem removeWidgetVar_rem_inv (acc : LimnSolver × List Constraint)
    (v : VarId) (hP : RemInv acc) : RemInv (removeWidgetVar acc v) := by
  unfold removeWidgetVar
  cases hf : findA acc.1.var_map v with
  | none =>
      simp only [hf]
      exact hP
  | some cset =>
      simp only [hf]
      have hstart : RemInv ({ acc.1 with var_map := eraseA acc.1.var_map v },
          acc.2) := hP
      have hfold := foldl_preserves RemInv cleanupConstraint
        cleanupConstraint_rem_inv cset _ hstart
      exact hfold

/-- Claim C5: constraint removal is idempotent.  Within one
`remove_widget` call a constraint is removed from the solver at most once
(the removal trace has no duplicate entries, since a constraint already
removed via a sibling variable fails the existence check), and attempting
to clean up an already-removed constraint is a complete no-op rather than
an error. -/
theorem claim5_removal_idempotent (s : LimnSolver) (vars : LayoutVars) :
    (s.remove_widget_tr vars).2.Nodup ∧
    (∀ (s2 : LimnSolver) (tr : List Constraint) (c : Constraint),
      c ∉ s2.solver.constraints → cleanupConstraint (s2, tr) c = (s2, tr)) := by
  constructor
  · have hinv : RemInv (s, ([] : List Constraint)) :=
      ⟨List.nodup_nil, by intro c hc; simp at hc⟩
    have hfold := foldl_preserves RemInv removeWidgetVar
      removeWidgetVar_rem_inv [vars.left, vars.top, vars.right, vars.bottom]
      (s, []) hinv
    exact hfold.1
  · intro s2 tr c hc
    exact cleanupConstraint_skip s2 tr c hc

/-- Constraint relating variables 1 and 2, used by the claim C5
witness. -/
def c5both : Constraint :=
  { cid := 0,
    terms := [{ var := 1, coeff := 1 }, { var := 2, coeff := -1 }],
    constant := 0, op := RelOp.eq, strength := REQUIRED }

/-- Constraint never registered in the claim C5 witness state. -/
def c5other : Constraint :=
  { cid := 1, terms := [{ var := 3, coeff := 1 }], constant := 0,
    op := RelOp.eq, strength := WEAK }

/-- Boundary variables of the widget removed in the claim C5 witness. -/
def c5vars : LayoutVars :=
  { left := 1, top := 2, right := 3, bottom := 4, width := 5, height := 6 }

/-- State holding `c5both`, which is indexed under both variable 1 and
variable 2. -/
def c5state : LimnSolver :=
  (LimnSolver.new.update_from_builder
    { edit_vars := [], constraints := [c5both] }).getD LimnSolver.new

/-- Witness for claim C5: removing the widget whose `left` and `top` both
reach `c5both` produces a duplicate-free removal trace, and cleaning up
the unregistered `c5other` is a no-op. -/
theorem claim5_removal_idempotent_witness :
    (c5state.remove_widget_tr c5vars).2.Nodup ∧
    cleanupConstraint (c5state, []) c5other = (c5state, []) :=
  ⟨(claim5_removal_idempotent c5state c5vars).1,
    (claim5_removal_idempotent c5state c5vars).2 c5state [] c5other
      (by decide)⟩

/-- Layout update whose only effect is a suggestion to a variable owned by
no widget. -/
def c3lu : LayoutUpdate :=
  { edit_vars := [{ var := 3, strength := STRONG, val := 5 }],
    constraints := [] }

/-- Counterexample to claim C3 as stated: a batch whose only change hits a
variable owned by no live widget still emits one `LayoutChanged`
notification, carrying an empty triple list — the code tests the raw
changed-variable list, not the filtered triple list, so "no notification
otherwise" is false. -/
theorem claim3_counterexample :
    (LimnSolver.new.update_from_builder c3lu).map LimnSolver.events =
      some [[]] ∧
    (LimnSolver.new.update_from_builder c3lu).map
      (fun s => s.events.length) = some 1 := by
  exact ⟨rfl, rfl⟩

/-- Claim C3 as amended: for every mutation batch applied through
`update_solver`, change detection runs once and emits at most one
`LayoutChanged` notification: exactly one when the solver's raw
changed-variable list is non-empty (even if every changed variable is
unowned, in which case the batch is empty) and none otherwise; the emitted
batch is the complete list of owned `(widget, variable, value)` triples of
the raw change list — never several notifications and never a partial
list — and changed variables owned by no live widget are dropped
silently. -/
theorem claim3_batch (s : LimnSolver) (f : CasSolver → Option CasSolver)
    (sv : CasSolver) (s2 : LimnSolver)
    (hf : f s.solver = some sv) (h : s.update_solver f = some s2) :
    s2.events =
      s.events ++
        (if (sv.fetch_changes).1 = [] then []
         else [wchangesOf s.widget_map (sv.fetch_changes).1]) ∧
    s2.events.length ≤ s.events.length + 1 := by
  have hs2 : s2 = LimnSolver.check_changes { s with solver := sv } := by
    unfold LimnSolver.update_solver at h
    rw [hf] at h
    simp at h
    exact h.symm
  subst hs2
  unfold LimnSolver.check_changes
  cases hch : (CasSolver.fetch_changes sv).1 with
  | nil =>
      simp [hch]
  | cons a rest =>
      simp [hch]

/-- Layout variables of the widget used by the claim C3 witness. -/
def c3vars : LayoutVars :=
  { left := 1, top := 2, right := 3, bottom := 4, width := 5, height := 6 }

/-- Widget used by the claim C3 witness. -/
def c3widget : Widget := { id := 7, layout := c3vars }

/-- State after attaching `c3widget` with one suggested edit variable. -/
def c3state : LimnSolver :=
  (LimnSolver.new.add_widget c3widget
    { edit_vars := [{ var := 1, strength := STRONG, val := 10 }],
      constraints := [] }).getD LimnSolver.new

/-- Mutation batch of the claim C3 witness: suggest a new value for
variable 1. -/
def c3f (sv : CasSolver) : Option CasSolver :=
  (sv.suggest_value 1 20).toOption

/-- Solver state after the witness mutation. -/
def c3sv : CasSolver := (c3f c3state.solver).getD c3state.solver

/-- Store state after the witness `update_solver` call. -/
def c3s2 : LimnSolver := (c3state.update_solver c3f).getD c3state

/-- Witness for the amended claim C3 at a concrete batch. -/
theorem claim3_batch_witness :
    c3f c3state.solver = some c3sv ∧
    c3state.update_solver c3f = some c3s2 ∧
    (c3s2.events =
        c3state.events ++
          (if (c3sv.fetch_changes).1 = [] then []
           else [wchangesOf c3state.widget_map (c3sv.fetch_changes).1]) ∧
      c3s2.events.length ≤ c3state.events.length + 1) :=
  ⟨by rfl, by rfl, claim3_batch c3state c3f c3sv c3s2 (by rfl) (by rfl)⟩

/-- Fetching changes only rewrites the snapshot: the constraint set of the
solver is untouched. -/
theorem fetch_changes_constraints (sv : CasSolver) :
    (sv.fetch_changes).2.constraints = sv.constraints := rfl

/-- Change detection touches only the snapshot inside the solver and the
event log: every index and the constraint set are unchanged. -/
theorem check_changes_frame (s : LimnSolver) :
    (s.check_changes).widget_map = s.widget_map ∧
    (s.check_changes).var_map = s.var_map ∧
    (s.check_changes).constraint_map = s.constraint_map ∧
    (s.check_changes).solver.constraints = s.solver.constraints ∧
    (s.check_changes).debug_constraint_list = s.debug_constraint_list := by
  unfold LimnSolver.check_changes
  by_cases hl : (s.solver.fetch_changes).1.length > 0
  · simp [hl, fetch_changes_constraints]
  · simp [hl, fetch_changes_constraints]

/-- Successful `LimnSolver::add_constraint`: the constraint is appended to
the solver (so it was not registered before), and no index other than the
debug list changes. -/
theorem add_constraint_spec (s : LimnSolver) (c : Constraint)
    (s1 : LimnSolver) (h : LimnSolver.add_constraint s c = some s1) :
    s1.solver.constraints = s.solver.constraints ++ [c] ∧
    c ∉ s.solver.constraints ∧
    s1.var_map = s.var_map ∧
    s1.constraint_map = s.constraint_map ∧
    s1.widget_map = s.widget_map ∧
    s1.events = s.events := by
  unfold LimnSolver.add_constraint at h
  dsimp only at h
  cases hac : CasSolver.add_constraint s.solver c with
  | error e => rw [hac] at h; simp at h
  | ok sv =>
      rw [hac] at h
      simp at h
      unfold CasSolver.add_constraint at hac
      by_cases h1 : c ∈ s.solver.constraints
      · simp [h1] at hac
      · by_cases hu : s.solver.unsatisfiable c = true
        · simp [h1, hu] at hac
        · simp [h1, hu] at hac
          refine ⟨?_, h1, ?_, ?_, ?_, ?_⟩
          · rw [← h]
            show sv.constraints = s.solver.constraints ++ [c]
            rw [← hac]
          · rw [← h]
          · rw [← h]
          · rw [← h]
          · rw [← h]

/-- A fallible fold preserves any property each successful step
preserves. -/
theorem foldlM_option_inv {α σ : Type} (P : σ → Prop)
    (f : σ → α → Option σ)
    (hf : ∀ s a s2, P s → f s a = some s2 → P s2) :
    ∀ (l : List α) (s s2 : σ), P s → l.foldlM f s = some s2 → P s2 := by
  intro l
  induction l with
  | nil =>
      intro s s2 hP h
      simp [List.foldlM] at h
      rw [← h]
      exact hP
  | cons a rest ih =>
      intro s s2 hP h
      rw [List.foldlM_cons] at h
      cases hfa : f s a with
      | none => rw [hfa] at h; simp at h
      | some s1 =>
          rw [hfa] at h
          simp only [Option.bind_eq_bind, Option.some_bind] at h
          exact ih s1 s2 (hf s a s1 hP hfa) h

/-- One constraint-registration step leaves `widget_map` and the event log
unchanged. -/
theorem processConstraint_frame (s : LimnSolver) (c : Constraint)
    (s2 : LimnSolver) (h : processConstraint s c = some s2) :
    s2.widget_map = s.widget_map ∧ s2.events = s.events := by
  unfold processConstraint at h
  cases hac : LimnSolver.add_constraint s c with
  | none => rw [hac] at h; simp at h
  | some s1 =>
      rw [hac] at h
      simp at h
      have hspec := add_constraint_spec s c s1 hac
      constructor
      · rw [← h]
        exact hspec.2.2.2.2.1
      · rw [← h]
        exact hspec.2.2.2.2.2

/-- A successful `update_from_builder` leaves `widget_map` unchanged. -/
theorem update_from_builder_widget_map (s : LimnSolver) (lu : LayoutUpdate)
    (s2 : LimnSolver) (h : s.update_from_builder lu = some s2) :
    s2.widget_map = s.widget_map := by
  unfold LimnSolver.update_from_builder at h
  cases hsv : processEditVars s.solver lu.edit_vars with
  | none => rw [hsv] at h; simp at h
  | some sv =>
      rw [hsv] at h
      simp only [Option.bind_eq_bind, Option.some_bind] at h
      cases hfold : lu.constraints.foldlM processConstraint
          { s with solver := sv } with
      | none => rw [hfold] at h; simp at h
      | some s3 =>
          rw [hfold] at h
          simp at h
          have hwm : s3.widget_map =
              ({ s with solver := sv } : LimnSolver).widget_map :=
            foldlM_option_inv
              (fun st => st.widget_map =
                ({ s with solver := sv } : LimnSolver).widget_map)
              processConstraint
              (fun st c st2 hP hstep =>
                (processConstraint_frame st c st2 hstep).1.trans hP)
              lu.constraints { s with solver := sv } s3 rfl hfold
          rw [← h]
          rw [(check_changes_frame s3).1]
          exact hwm

/-- Constraint cleanup never touches `widget_map`. -/
theorem cleanupConstraint_widget_map (acc : LimnSolver × List Constraint)
    (c : Constraint) :
    (cleanupConstraint acc c).1.widget_map = acc.1.widget_map := by
  unfold cleanupConstraint
  by_cases hc : acc.1.solver.has_constraint c = true
  · simp only [hc, if_true]
    cases hf : findA
        { acc.1 with
            debug_constraint_list :=
              acc.1.debug_constraint_list.filter (fun c2 => decide (c2 ≠ c)),
            solver := { acc.1.solver with constraints :=
              acc.1.solver.constraints.filter (fun c2 => decide (c2 ≠ c)) }
          }.constraint_map c with
    | none => simp [hf]
    | some varList => simp [hf]
  · simp [hc]

/-- One boundary-variable removal step erases exactly that variable from
`widget_map`. -/
theorem removeWidgetVar_widget_map (acc : LimnSolver × List Constraint)
    (v : VarId) :
    (removeWidgetVar acc v).1.widget_map = eraseA acc.1.widget_map v := by
  unfold removeWidgetVar
  cases hf : findA acc.1.var_map v with
  | none => simp only [hf]
  | some cset =>
      simp only [hf]
      have hfold := foldl_preserves
        (fun p : LimnSolver × List Constraint =>
          p.1.widget_map = acc.1.widget_map)
        cleanupConstraint
        (fun p c hp => (cleanupConstraint_widget_map p c).trans hp)
        cset ({ acc.1 with var_map := eraseA acc.1.var_map v }, acc.2) rfl
      rw [hfold]

/-- After `remove_widget`, `widget_map` is the original map with exactly
the four boundary variables erased. -/
theorem remove_widget_widget_map (s : LimnSolver) (vars : LayoutVars) :
    (s.remove_widget vars).widget_map =
      eraseA (eraseA (eraseA (eraseA s.widget_map vars.left) vars.top)
        vars.right) vars.bottom := by
  unfold LimnSolver.remove_widget LimnSolver.remove_widget_tr
  rw [(check_changes_frame _).1]
  show (removeWidgetVar (removeWidgetVar (removeWidgetVar (removeWidgetVar
    (s, []) vars.left) vars.top) vars.right) vars.bottom).1.widget_map = _
  rw [removeWidgetVar_widget_map, removeWidgetVar_widget_map,
    removeWidgetVar_widget_map, removeWidgetVar_widget_map]

/-- Layout variables of the widget in the claim C10 scenario. -/
def c10vars : LayoutVars :=
  { left := 1, top := 2, right := 3, bottom := 4, width := 5, height := 6 }

/-- Widget of the claim C10 scenario. -/
def c10widget : Widget := { id := 7, layout := c10vars }

/-- State after attaching the claim C10 widget with its `width` variable
as a suggested edit variable. -/
def c10s1 : LimnSolver :=
  (LimnSolver.new.add_widget c10widget
    { edit_vars := [{ var := 5, strength := STRONG, val := 100 }],
      constraints := [] }).getD LimnSolver.new

/-- State after removing the claim C10 widget again. -/
def c10s2 : LimnSolver := c10s1.remove_widget c10vars

/-- Final state of the claim C10 scenario: after the removal, a new value
is suggested for the removed widget's `width` variable. -/
def c10final : Option LimnSolver :=
  c10s2.update_solver (fun sv => (sv.suggest_value 5 200).toOption)

/-- Claim C10: `add_widget` inserts `widget_map` ownership entries for the
widget's `left`, `top`, `width` and `height` variables but not `right` or
`bottom`, while `remove_widget` deletes entries only for `left`, `top`,
`right` and `bottom`; consequently after an add-then-remove the `width`
and `height` variables still map to the removed widget id, and a later
change-detection pass attributes a value change to the removed widget (the
concrete scenario ends with a `LayoutChanged` batch naming widget 7 after
widget 7 was removed). -/
theorem claim10_widget_map_asymmetry (s : LimnSolver) (w : Widget)
    (lu : LayoutUpdate) (s1 : LimnSolver)
    (hadd : s.add_widget w lu = some s1)
    (hnd : [w.layout.left, w.layout.top, w.layout.right, w.layout.bottom,
      w.layout.width, w.layout.height].Nodup) :
    (findA s1.widget_map w.layout.left = some w.id ∧
      findA s1.widget_map w.layout.top = some w.id ∧
      findA s1.widget_map w.layout.width = some w.id ∧
      findA s1.widget_map w.layout.height = some w.id) ∧
    (findA s1.widget_map w.layout.right = findA s.widget_map w.layout.right ∧
      findA s1.widget_map w.layout.bottom =
        findA s.widget_map w.layout.bottom) ∧
    (findA (s1.remove_widget w.layout).widget_map w.layout.width =
        some w.id ∧
      findA (s1.remove_widget w.layout).widget_map w.layout.height =
        some w.id ∧
      findA (s1.remove_widget w.layout).widget_map w.layout.left = none ∧
      findA (s1.remove_widget w.layout).widget_map w.layout.top = none ∧
      findA (s1.remove_widget w.layout).widget_map w.layout.right = none ∧
      findA (s1.remove_widget w.layout).widget_map w.layout.bottom = none) ∧
    c10final.map LimnSolver.events = some [[(7, 5, 100)], [(7, 5, 200)]] := by
  simp only [List.nodup_cons, List.mem_cons, List.mem_singleton,
    List.not_mem_nil, or_false, not_or, List.nodup_nil, and_true] at hnd
  obtain ⟨⟨hlt, hlr, hlb, hlw, hlh⟩, ⟨htr, htb, htw, hth⟩,
    ⟨hrb, hrw, hrh⟩, ⟨hbw, hbh⟩, hwh, -⟩ := hnd
  have hwm : s1.widget_map =
      insertA (insertA (insertA (insertA s.widget_map
        w.layout.left w.id) w.layout.top w.id) w.layout.width w.id)
        w.layout.height w.id := by
    unfold LimnSolver.add_widget at hadd
    exact update_from_builder_widget_map _ _ _ hadd
  have hleft : findA s1.widget_map w.layout.left = some w.id := by
    rw [hwm]
    rw [findA_insertA_ne _ _ _ _ (Ne.symm hlh),
      findA_insertA_ne _ _ _ _ (Ne.symm hlw),
      findA_insertA_ne _ _ _ _ (Ne.symm hlt),
      findA_insertA_same]
  have htop : findA s1.widget_map w.layout.top = some w.id := by
    rw [hwm]
    rw [findA_insertA_ne _ _ _ _ (Ne.symm hth),
      findA_insertA_ne _ _ _ _ (Ne.symm htw),
      findA_insertA_same]
  have hwidth : findA s1.widget_map w.layout.width = some w.id := by
    rw [hwm]
    rw [findA_insertA_ne _ _ _ _ (Ne.symm hwh), findA_insertA_same]
  have hheight : findA s1.widget_map w.layout.height = some w.id := by
    rw [hwm, findA_insertA_same]
  have hright : findA s1.widget_map w.layout.right =
      findA s.widget_map w.layout.right := by
    rw [hwm]
    rw [findA_insertA_ne _ _ _ _ (Ne.symm hrh),
      findA_insertA_ne _ _ _ _ (Ne.symm hrw),
      findA_insertA_ne _ _ _ _ htr, findA_insertA_ne _ _ _ _ hlr]
  have hbottom : findA s1.widget_map w.layout.bottom =
      findA s.widget_map w.layout.bottom := by
    rw [hwm]
    rw [findA_insertA_ne _ _ _ _ (Ne.symm hbh),
      findA_insertA_ne _ _ _ _ (Ne.symm hbw),
      findA_insertA_ne _ _ _ _ htb, findA_insertA_ne _ _ _ _ hlb]
  have hrem := remove_widget_widget_map s1 w.layout
  refine ⟨⟨hleft, htop, hwidth, hheight⟩, ⟨hright, hbottom⟩,
    ⟨?_, ?_, ?_, ?_, ?_, ?_⟩, by rfl⟩
  · rw [hrem]
    rw [findA_eraseA_ne _ _ _ hbw, findA_eraseA_ne _ _ _ hrw,
      findA_eraseA_ne _ _ _ htw, findA_eraseA_ne _ _ _ hlw]
    exact hwidth
  · rw [hrem]
    rw [findA_eraseA_ne _ _ _ hbh, findA_eraseA_ne _ _ _ hrh,
      findA_eraseA_ne _ _ _ hth, findA_eraseA_ne _ _ _ hlh]
    exact hheight
  · rw [hrem]
    rw [findA_eraseA_ne _ _ _ (Ne.symm hlb), findA_eraseA_ne _ _ _
      (Ne.symm hlr), findA_eraseA_ne _ _ _ (Ne.symm hlt),
      findA_eraseA_same]
  · rw [hrem]
    rw [findA_eraseA_ne _ _ _ (Ne.symm htb), findA_eraseA_ne _ _ _
      (Ne.symm htr), findA_eraseA_same]
  · rw [hrem]
    rw [findA_eraseA_ne _ _ _ (Ne.symm hrb), findA_eraseA_same]
  · rw [hrem, findA_eraseA_same]

/-- Witness for claim C10 at the concrete scenario: after add then remove,
the `width` and `height` variables (5 and 6) still map to the removed
widget 7, while the erased `left` variable does not. -/
theorem claim10_widget_map_asymmetry_witness :
    findA (c10s1.remove_widget c10vars).widget_map 5 = some 7 ∧
    findA (c10s1.remove_widget c10vars).widget_map 6 = some 7 ∧
    findA (c10s1.remove_widget c10vars).widget_map 1 = none := by
  have h := claim10_widget_map_asymmetry LimnSolver.new c10widget
    { edit_vars := [{ var := 5, strength := STRONG, val := 100 }],
      constraints := [] } c10s1 (by rfl) (by decide)
  exact ⟨h.2.2.1.1, h.2.2.1.2.1, h.2.2.1.2.2.1⟩

/-- Layout variables of the root widget in the claim C2 scenario. -/
def c2vars : LayoutVars :=
  { left := 1, top := 2, right := 3, bottom := 4, width := 5, height := 6 }

/-- Root widget of the claim C2 scenario. -/
def c2root : Widget := { id := 0, layout := c2vars }

/-- Required constraint `left = 0` of the scenario. -/
def c2cL : Constraint :=
  { cid := 10, terms := [{ var := 1, coeff := 1 }], constant := 0,
    op := RelOp.eq, strength := REQUIRED }

/-- Required constraint `top = 0` of the scenario. -/
def c2cT : Constraint :=
  { cid := 11, terms := [{ var := 2, coeff := 1 }], constant := 0,
    op := RelOp.eq, strength := REQUIRED }

/-- Modelled from the spec: the required defining constraint
`width = right - left` that `LayoutVars` construction installs (spec
section 3). -/
def c2cW : Constraint :=
  { cid := 12,
    terms := [{ var := 5, coeff := 1 }, { var := 3, coeff := -1 },
      { var := 1, coeff := 1 }],
    constant := 0, op := RelOp.eq, strength := REQUIRED }

/-- Modelled from the spec: the required defining constraint
`height = bottom - top` that `LayoutVars` construction installs (spec
section 3). -/
def c2cH : Constraint :=
  { cid := 13,
    terms := [{ var := 6, coeff := 1 }, { var := 4, coeff := -1 },
      { var := 2, coeff := 1 }],
    constant := 0, op := RelOp.eq, strength := REQUIRED }

/-- Layout update of the claim C2 scenario: edit variables `right` and
`bottom` at strong strength with initial suggestions 800 and 600, plus the
required constraints. -/
def c2lu : LayoutUpdate :=
  { edit_vars := [{ var := 3, strength := STRONG, val := 800 },
      { var := 4, strength := STRONG, val := 600 }],
    constraints := [c2cL, c2cT, c2cW, c2cH] }

/-- State after creating the root widget of the claim C2 scenario. -/
def c2s1 : LimnSolver :=
  (LimnSolver.new.add_widget c2root c2lu).getD LimnSolver.new

/-- Mutation closure of the scenario: suggest the new values 1000 and 700
for `right` and `bottom`, mirroring the closure passed to
`update_solver`. -/
def c2f (sv : CasSolver) : Option CasSolver :=
  (sv.suggest_value 3 1000).toOption.bind
    (fun sv2 => (sv2.suggest_value 4 700).toOption)

/-- Final state of the claim C2 scenario. -/
def c2final : Option LimnSolver := c2s1.update_solver c2f

/-- Counterexample to claim C2 as stated: the suggestion of 1000 and 700
does emit exactly one `LayoutChanged` batch, but that batch is
`[(0, width, 1000), (0, height, 700)]` — it contains neither
`(0, right, 1000)` nor `(0, bottom, 700)`, because `add_widget` records
`widget_map` ownership for `left`, `top`, `width` and `height` only, so
the changed `right` (variable 3) and `bottom` (variable 4) are dropped as
unowned. -/
theorem claim2_counterexample :
    c2final.map LimnSolver.events =
      some [[(0, 5, 800), (0, 6, 600)], [(0, 5, 1000), (0, 6, 700)]] ∧
    (0, 3, (1000 : Value)) ∉
      [((0 : WidgetId), (5 : VarId), (1000 : Value)), (0, 6, 700)] ∧
    (0, 4, (700 : Value)) ∉
      [((0 : WidgetId), (5 : VarId), (1000 : Value)), (0, 6, 700)] := by
  refine ⟨by rfl, by decide, by decide⟩

/-- Claim C2 as amended: in the scenario, the suggestion of 1000 and 700
via `update_solver` emits exactly one `LayoutChanged` batch, and that
batch contains `(root, width, 1000)` and `(root, height, 700)` (variables
5 and 6) instead of the claimed `right` and `bottom` triples, since
`widget_map` does not track `right` or `bottom`. -/
theorem claim2_scenario_batch :
    c2s1.events = [[(0, 5, 800), (0, 6, 600)]] ∧
    c2final.map LimnSolver.events =
      some [[(0, 5, 800), (0, 6, 600)], [(0, 5, 1000), (0, 6, 700)]] := by
  exact ⟨rfl, rfl⟩

/-- Constraint set stored under a variable in a raw `var_map`. -/
def vmSet (m : List (VarId × List Constraint)) (v : VarId) :
    List Constraint :=
  (findA m v).getD []

/-- Unfolds `varMapSet` to `vmSet`. -/
theorem varMapSet_eq_vmSet (s : LimnSolver) (v : VarId) :
    s.varMapSet v = vmSet s.var_map v := rfl

/-- Set lookup after inserting the same key. -/
theorem vmSet_insertA_same (m : List (VarId × List Constraint)) (v : VarId)
    (cs : List Constraint) : vmSet (insertA m v cs) v = cs := by
  unfold vmSet
  rw [findA_insertA_same]
  rfl

/-- Set lookup after inserting a different key. -/
theorem vmSet_insertA_ne (m : List (VarId × List Constraint)) (v v2 : VarId)
    (cs : List Constraint) (h : v ≠ v2) :
    vmSet (insertA m v cs) v2 = vmSet m v2 := by
  unfold vmSet
  rw [findA_insertA_ne _ _ _ _ h]

/-- Membership in a set-style insertion. -/
theorem insertS_mem_iff {α : Type} [DecidableEq α] (s : List α) (a b : α) :
    b ∈ insertS s a ↔ b ∈ s ∨ b = a := by
  unfold insertS
  by_cases ha : a ∈ s
  · simp only [ha, if_true]
    constructor
    · exact Or.inl
    · intro h
      cases h with
      | inl h2 => exact h2
      | inr h2 => rw [h2]; exact ha
  · simp [ha]

/-- Invariant: every registered constraint is indexed in `var_map` under
each variable its terms reference. -/
def VarIndexed (s : LimnSolver) : Prop :=
  ∀ c ∈ s.solver.constraints, ∀ t ∈ c.terms, c ∈ s.varMapSet t.var

/-- Invariant: every constraint held in a `var_map` set is live in the
solver. -/
def SetsLive (s : LimnSolver) : Prop :=
  ∀ v : VarId, ∀ c ∈ s.varMapSet v, c ∈ s.solver.constraints

/-- Invariant: every `var_map` membership of a constraint is recorded in
that constraint's `constraint_map` variable list. -/
def SetsTracked (s : LimnSolver) : Prop :=
  ∀ v : VarId, ∀ c ∈ s.varMapSet v, v ∈ s.cmapVars c

/-- Bookkeeping invariant of the constraint store. -/
def StoreInv (s : LimnSolver) : Prop :=
  VarIndexed s ∧ SetsLive s ∧ SetsTracked s

/-- Behaviour of the term-indexing fold of `update_from_builder`: existing
memberships persist, the only new membership is the added constraint at
its own term variables, the added constraint ends indexed under each of
its term variables, and the variable list is extended by exactly the term
variables. -/
theorem indexTerm_fold_spec (c : Constraint) :
    ∀ (ts : List Term) (m0 : List (VarId × List Constraint))
      (vl0 : List VarId),
      (∀ (v : VarId) (c2 : Constraint), c2 ∈ vmSet m0 v →
        c2 ∈ vmSet (ts.foldl (indexTerm c) (m0, vl0)).1 v) ∧
      (∀ (v : VarId) (c2 : Constraint),
        c2 ∈ vmSet (ts.foldl (indexTerm c) (m0, vl0)).1 v →
        c2 ∈ vmSet m0 v ∨ (c2 = c ∧ v ∈ ts.map Term.var)) ∧
      (∀ t ∈ ts, c ∈ vmSet (ts.foldl (indexTerm c) (m0, vl0)).1 t.var) ∧
      (ts.foldl (indexTerm c) (m0, vl0)).2 = vl0 ++ ts.map Term.var := by
  intro ts
  induction ts with
  | nil =>
      intro m0 vl0
      exact ⟨fun v c2 h => h, fun v c2 h => Or.inl h, by simp, by simp⟩
  | cons t ts ih =>
      intro m0 vl0
      have hstep : indexTerm c (m0, vl0) t =
          (insertA m0 t.var (insertS (vmSet m0 t.var) c), vl0 ++ [t.var]) :=
        rfl
      have hfold : (t :: ts).foldl (indexTerm c) (m0, vl0) =
          ts.foldl (indexTerm c)
            (insertA m0 t.var (insertS (vmSet m0 t.var) c),
              vl0 ++ [t.var]) := by
        rw [List.foldl_cons, hstep]
      obtain ⟨ihA, ihB, ihC, ihD⟩ :=
        ih (insertA m0 t.var (insertS (vmSet m0 t.var) c)) (vl0 ++ [t.var])
      rw [hfold]
      refine ⟨?_, ?_, ?_, ?_⟩
      · intro v c2 h
        apply ihA
        by_cases hv : t.var = v
        · subst hv
          rw [vmSet_insertA_same]
          exact (insertS_mem_iff _ _ _).mpr (Or.inl h)
        · rw [vmSet_insertA_ne _ _ _ _ hv]
          exact h
      · intro v c2 h
        rcases ihB v c2 h with h1 | h2
        · by_cases hv : t.var = v
          · subst hv
            rw [vmSet_insertA_same] at h1
            rcases (insertS_mem_iff _ _ _).mp h1 with h3 | h3
            · exact Or.inl h3
            · exact Or.inr ⟨h3, by simp⟩
          · rw [vmSet_insertA_ne _ _ _ _ hv] at h1
            exact Or.inl h1
        · exact Or.inr ⟨h2.1, by simp [h2.2]⟩
      · intro t2 ht2
        rcases List.mem_cons.mp ht2 with h3 | h3
        · subst h3
          apply ihA
          rw [vmSet_insertA_same]
          exact (insertS_mem_iff _ _ _).mpr (Or.inr rfl)
        · exact ihC t2 h3
      · rw [ihD]
        simp

/-- Unfolds `cmapVars` to the raw lookup. -/
theorem cmapVars_eq (s : LimnSolver) (c : Constraint) :
    s.cmapVars c = (findA s.constraint_map c).getD [] := rfl

/-- The invariant only looks at `var_map`, `constraint_map` and the
constraint set, so it transports along states equal there. -/
theorem storeInv_of_eq (s s2 : LimnSolver)
    (hvm : s2.var_map = s.var_map)
    (hcm : s2.constraint_map = s.constraint_map)
    (hcs : s2.solver.constraints = s.solver.constraints)
    (h : StoreInv s) : StoreInv s2 := by
  obtain ⟨h1, h2, h3⟩ := h
  refine ⟨?_, ?_, ?_⟩
  · intro c hc t ht
    rw [varMapSet_eq_vmSet, hvm]
    exact h1 c (by rw [← hcs]; exact hc) t ht
  · intro v c hc
    rw [varMapSet_eq_vmSet, hvm] at hc
    rw [hcs]
    exact h2 v c hc
  · intro v c hc
    rw [varMapSet_eq_vmSet, hvm] at hc
    rw [cmapVars_eq, hcm]
    exact h3 v c hc

/-- Characterization of a successful `processConstraint` step. -/
theorem processConstraint_spec (s : LimnSolver) (c : Constraint)
    (s2 : LimnSolver) (h : processConstraint s c = some s2) :
    s2.solver.constraints = s.solver.constraints ++ [c] ∧
    c ∉ s.solver.constraints ∧
    s2.var_map = (c.terms.foldl (indexTerm c) (s.var_map, s.cmapVars c)).1 ∧
    s2.constraint_map = insertA s.constraint_map c
      (c.terms.foldl (indexTerm c) (s.var_map, s.cmapVars c)).2 := by
  unfold processConstraint at h
  cases hac : LimnSolver.add_constraint s c with
  | none => rw [hac] at h; simp at h
  | some s1 =>
      rw [hac] at h
      simp at h
      have hspec := add_constraint_spec s c s1 hac
      have hvm1 : s1.var_map = s.var_map := hspec.2.2.1
      have hcm1 : s1.constraint_map = s.constraint_map := hspec.2.2.2.1
      refine ⟨?_, hspec.2.1, ?_, ?_⟩
      · rw [← h]
        exact hspec.1
      · rw [← h]
        show (c.terms.foldl (indexTerm c)
          (s1.var_map, (findA s1.constraint_map c).getD [])).1 = _
        rw [hvm1, hcm1, cmapVars_eq]
      · rw [← h]
        show insertA s1.constraint_map c (c.terms.foldl (indexTerm c)
          (s1.var_map, (findA s1.constraint_map c).getD [])).2 = _
        rw [hvm1, hcm1, cmapVars_eq]

/-- A successful constraint registration preserves the store
invariant. -/
theorem processConstraint_inv (s : LimnSolver) (c : Constraint)
    (s2 : LimnSolver) (h : processConstraint s c = some s2)
    (hInv : StoreInv s) : StoreInv s2 := by
  obtain ⟨hI1, hI2, hI3⟩ := hInv
  obtain ⟨hcons, hfresh, hvm, hcm⟩ := processConstraint_spec s c s2 h
  obtain ⟨hA, hB, hC, hD⟩ :=
    indexTerm_fold_spec c c.terms s.var_map (s.cmapVars c)
  refine ⟨?_, ?_, ?_⟩
  · intro c2 hc2 t ht
    rw [hcons] at hc2
    rw [varMapSet_eq_vmSet, hvm]
    rcases List.mem_append.mp hc2 with h1 | h1
    · exact hA t.var c2 (hI1 c2 h1 t ht)
    · rw [List.mem_singleton] at h1
      subst h1
      exact hC t ht
  · intro v c2 hc2
    rw [varMapSet_eq_vmSet, hvm] at hc2
    rw [hcons]
    rcases hB v c2 hc2 with h1 | h2
    · exact List.mem_append_left _ (hI2 v c2 h1)
    · rw [h2.1]
      exact List.mem_append_right _ (List.mem_singleton_self c)
  · intro v c2 hc2
    rw [varMapSet_eq_vmSet, hvm] at hc2
    rcases hB v c2 hc2 with h1 | h2
    · by_cases hcc : c2 = c
      · subst hcc
        exact absurd (hI2 v c2 h1) hfresh
      · have hmem := hI3 v c2 h1
        rw [cmapVars_eq, hcm]
        rw [findA_insertA_ne _ _ _ _ (Ne.symm hcc)]
        rw [cmapVars_eq] at hmem
        exact hmem
    · rw [h2.1]
      rw [cmapVars_eq, hcm, findA_insertA_same]
      show v ∈ (c.terms.foldl (indexTerm c) (s.var_map, s.cmapVars c)).2
      rw [hD]
      exact List.mem_append_right _ h2.2

/-- Change detection preserves the store invariant. -/
theorem check_changes_inv (s : LimnSolver) (h : StoreInv s) :
    StoreInv s.check_changes := by
  have hf := check_changes_frame s
  exact storeInv_of_eq s s.check_changes hf.2.1 hf.2.2.1 hf.2.2.2.1 h

/-- A successful `update_from_builder` preserves the store invariant. -/
theorem update_from_builder_inv (s : LimnSolver) (lu : LayoutUpdate)
    (s2 : LimnSolver) (h : s.update_from_builder lu = some s2)
    (hInv : StoreInv s) : StoreInv s2 := by
  unfold LimnSolver.update_from_builder at h
  cases hsv : processEditVars s.solver lu.edit_vars with
  | none => rw [hsv] at h; simp at h
  | some sv =>
      rw [hsv] at h
      simp only [Option.bind_eq_bind, Option.some_bind] at h
      cases hfold : lu.constraints.foldlM processConstraint
          { s with solver := sv } with
      | none => rw [hfold] at h; simp at h
      | some s3 =>
          rw [hfold] at h
          simp at h
          have hsw : StoreInv { s with solver := sv } :=
            storeInv_of_eq s { s with solver := sv } rfl rfl
              (processEditVars_spec lu.edit_vars s.solver sv hsv).2.2.1 hInv
          have h3 : StoreInv s3 :=
            foldlM_option_inv StoreInv processConstraint
              (fun st c st2 hP hstep => processConstraint_inv st c st2 hstep hP)
              lu.constraints { s with solver := sv } s3 hsw hfold
          rw [← h]
          exact check_changes_inv s3 h3

/-- The fresh store satisfies the invariant. -/
theorem storeInv_new : StoreInv LimnSolver.new := by
  refine ⟨?_, ?_, ?_⟩
  · intro c hc
    simp [LimnSolver.new, CasSolver.new] at hc
  · intro v c hc
    simp [LimnSolver.new, LimnSolver.varMapSet, findA] at hc
  · intro v c hc
    simp [LimnSolver.new, LimnSolver.varMapSet, findA] at hc

/-- Every state reached by successful `add_widget` calls satisfies the
store invariant. -/
theorem reached_inv (s : LimnSolver) (h : Reached s) : StoreInv s := by
  induction h with
  | init => exact storeInv_new
  | step w lu hr hadd ih =>
      unfold LimnSolver.add_widget at hadd
      exact update_from_builder_inv _ _ _ hadd
        (storeInv_of_eq _ _ rfl rfl rfl ih)

/-- One step of the back-reference strip inside `remove_widget`: remove
the constraint from the set of one recorded variable, if that variable
still has an entry. -/
def stripStep (c : Constraint) (m : List (VarId × List Constraint))
    (v : VarId) : List (VarId × List Constraint) :=
  match findA m v with
  | some cset => insertA m v (removeS cset c)
  | none => m

/-- A strip step never changes the set of another variable. -/
theorem stripStep_ne (c : Constraint) (m : List (VarId × List Constraint))
    (v1 v : VarId) (h : v1 ≠ v) :
    vmSet (stripStep c m v1) v = vmSet m v := by
  unfold stripStep
  cases hf : findA m v1 with
  | none => rfl
  | some cset => exact vmSet_insertA_ne m v1 v (removeS cset c) h

/-- Membership of a different constraint survives a strip step in both
directions. -/
theorem stripStep_mem_iff (c : Constraint)
    (m : List (VarId × List Constraint)) (v1 v : VarId) (c2 : Constraint)
    (hne : c2 ≠ c) :
    (c2 ∈ vmSet (stripStep c m v1) v ↔ c2 ∈ vmSet m v) := by
  by_cases hv : v1 = v
  · subst hv
    unfold stripStep
    cases hf : findA m v1 with
    | none => exact Iff.rfl
    | some cset =>
        show c2 ∈ vmSet (insertA m v1 (removeS cset c)) v1 ↔
          c2 ∈ vmSet m v1
        rw [vmSet_insertA_same]
        unfold vmSet
        rw [hf]
        show c2 ∈ removeS cset c ↔ c2 ∈ cset
        unfold removeS
        rw [List.mem_filter]
        simp [hne]
  · rw [stripStep_ne c m v1 v hv]

/-- After a strip step, the stripped constraint is absent from the target
variable's set. -/
theorem stripStep_no_c (c : Constraint) (m : List (VarId × List Constraint))
    (v1 : VarId) : c ∉ vmSet (stripStep c m v1) v1 := by
  unfold stripStep
  cases hf : findA m v1 with
  | none =>
      unfold vmSet
      rw [hf]
      simp
  | some cset =>
      show c ∉ vmSet (insertA m v1 (removeS cset c)) v1
      rw [vmSet_insertA_same]
      unfold removeS
      rw [List.mem_filter]
      simp

/-- Absence of the stripped constraint is preserved by a strip step. -/
theorem stripStep_no_c_pres (c : Constraint)
    (m : List (VarId × List Constraint)) (v1 v : VarId)
    (h : c ∉ vmSet m v) : c ∉ vmSet (stripStep c m v1) v := by
  by_cases hv : v1 = v
  · subst hv
    exact stripStep_no_c c m v1
  · rw [stripStep_ne c m v1 v hv]
    exact h

/-- A strip step never creates an entry for a variable that has none. -/
theorem stripStep_none (c : Constraint)
    (m : List (VarId × List Constraint)) (v1 v : VarId)
    (h : findA m v = none) : findA (stripStep c m v1) v = none := by
  unfold stripStep
  cases hf : findA m v1 with
  | none => exact h
  | some cset =>
      have hv : v1 ≠ v := by
        intro heq
        rw [heq] at hf
        rw [hf] at h
        cases h
      rw [findA_insertA_ne _ _ _ _ hv]
      exact h

/-- The full back-reference strip: other constraints are untouched, the
stripped constraint disappears from every listed variable's set and stays
absent where it was absent, and no new entries appear. -/
theorem stripFold_spec (c : Constraint) :
    ∀ (vl : List VarId) (m : List (VarId × List Constraint)),
      (∀ (v : VarId) (c2 : Constraint), c2 ≠ c →
        (c2 ∈ vmSet (vl.foldl (stripStep c) m) v ↔ c2 ∈ vmSet m v)) ∧
      (∀ v : VarId, c ∉ vmSet m v →
        c ∉ vmSet (vl.foldl (stripStep c) m) v) ∧
      (∀ v ∈ vl, c ∉ vmSet (vl.foldl (stripStep c) m) v) ∧
      (∀ v : VarId, findA m v = none →
        findA (vl.foldl (stripStep c) m) v = none) := by
  intro vl
  induction vl with
  | nil =>
      intro m
      exact ⟨fun v c2 _ => Iff.rfl, fun v h => h, by simp, fun v h => h⟩
  | cons v1 vl ih =>
      intro m
      obtain ⟨ihA, ihB, ihC, ihD⟩ := ih (stripStep c m v1)
      rw [List.foldl_cons]
      refine ⟨?_, ?_, ?_, ?_⟩
      · intro v c2 hne
        exact (ihA v c2 hne).trans (stripStep_mem_iff c m v1 v c2 hne)
      · intro v h
        exact ihB v (stripStep_no_c_pres c m v1 v h)
      · intro v hv
        rcases List.mem_cons.mp hv with h1 | h1
        · subst h1
          exact ihB v (stripStep_no_c c m v)
        · exact ihC v h1
      · intro v h
        exact ihD v (stripStep_none c m v1 v h)

/-- Characterization of a cleanup step on a constraint still present in
the solver: the constraint is filtered out of the solver, the constraint
map is unchanged, and `var_map` is the recorded-variable strip of the old
map. -/
theorem cleanupConstraint_mem_spec (s : LimnSolver) (tr : List Constraint)
    (c : Constraint) (hc : c ∈ s.solver.constraints) :
    (cleanupConstraint (s, tr) c).1.solver.constraints =
      s.solver.constraints.filter (fun c2 => decide (c2 ≠ c)) ∧
    (cleanupConstraint (s, tr) c).1.constraint_map = s.constraint_map ∧
    (cleanupConstraint (s, tr) c).1.var_map =
      (s.cmapVars c).foldl (stripStep c) s.var_map := by
  unfold cleanupConstraint
  simp only [CasSolver.has_constraint, hc, decide_eq_true_eq, if_pos]
  cases hf : findA
      { s with
          debug_constraint_list :=
            s.debug_constraint_list.filter (fun c2 => decide (c2 ≠ c)),
          solver := { s.solver with constraints :=
            s.solver.constraints.filter (fun c2 => decide (c2 ≠ c)) }
        }.constraint_map c with
  | none =>
      have hnil : s.cmapVars c = [] := by
        rw [cmapVars_eq]
        rw [show findA s.constraint_map c = none from hf]
        rfl
      simp [hf, hnil]
  | some varList =>
      have hvl : s.cmapVars c = varList := by
        rw [cmapVars_eq]
        rw [show findA s.constraint_map c = some varList from hf]
        rfl
      simp only [hf]
      refine ⟨trivial, trivial, ?_⟩
      rw [hvl]
      rfl

/-- Invariant carried through the inner cleanup loop of `remove_widget`
for boundary variable `v0`: every live constraint is fully indexed except
possibly at `v0`, where it must still be in the pending set; the indices
are live and tracked; variables already processed (`V`) are referenced by
no live constraint; and `v0` has no `var_map` entry any more. -/
def RemState (v0 : VarId) (V : List VarId) (pending : List Constraint)
    (s : LimnSolver) : Prop :=
  (∀ c ∈ s.solver.constraints, ∀ t ∈ c.terms,
    c ∈ s.varMapSet t.var ∨ (t.var = v0 ∧ c ∈ pending)) ∧
  SetsLive s ∧ SetsTracked s ∧
  (∀ c ∈ s.solver.constraints, ∀ t ∈ c.terms, t.var ∉ V) ∧
  findA s.var_map v0 = none

/-- One cleanup step consumes the head of the pending set and preserves
the removal invariant. -/
theorem cleanup_step_rem (v0 : VarId) (V : List VarId) (c : Constraint)
    (rest : List Constraint) (s : LimnSolver) (tr : List Constraint)
    (h : RemState v0 V (c :: rest) s) :
    RemState v0 V rest (cleanupConstraint (s, tr) c).1 := by
  obtain ⟨hH1, hLive, hTrack, hClean, hNone⟩ := h
  by_cases hc : c ∈ s.solver.constraints
  · obtain ⟨hcons, hcm, hvm⟩ := cleanupConstraint_mem_spec s tr c hc
    obtain ⟨hA, hB, hC, hD⟩ := stripFold_spec c (s.cmapVars c) s.var_map
    have hmemR : ∀ c2 : Constraint,
        c2 ∈ (cleanupConstraint (s, tr) c).1.solver.constraints ↔
          (c2 ∈ s.solver.constraints ∧ c2 ≠ c) := by
      intro c2
      rw [hcons, List.mem_filter]
      simp
    have hnotc : ∀ v : VarId,
        c ∉ (cleanupConstraint (s, tr) c).1.varMapSet v := by
      intro v
      rw [varMapSet_eq_vmSet, hvm]
      by_cases hmv : c ∈ vmSet s.var_map v
      · exact hC v (hTrack v c hmv)
      · exact hB v hmv
    refine ⟨?_, ?_, ?_, ?_, ?_⟩
    · intro c2 hc2 t ht
      rw [hmemR] at hc2
      rcases hH1 c2 hc2.1 t ht with h1 | h1
      · left
        rw [varMapSet_eq_vmSet, hvm]
        exact (hA t.var c2 hc2.2).mpr h1
      · right
        refine ⟨h1.1, ?_⟩
        rcases List.mem_cons.mp h1.2 with h2 | h2
        · exact absurd h2 hc2.2
        · exact h2
    · intro v c2 hc2
      by_cases hcc : c2 = c
      · subst hcc
        exact absurd hc2 (hnotc v)
      · rw [varMapSet_eq_vmSet, hvm] at hc2
        have hold : c2 ∈ vmSet s.var_map v := (hA v c2 hcc).mp hc2
        rw [hmemR]
        exact ⟨hLive v c2 hold, hcc⟩
    · intro v c2 hc2
      by_cases hcc : c2 = c
      · subst hcc
        exact absurd hc2 (hnotc v)
      · rw [varMapSet_eq_vmSet, hvm] at hc2
        have hold : c2 ∈ vmSet s.var_map v := (hA v c2 hcc).mp hc2
        have htr2 := hTrack v c2 hold
        rw [cmapVars_eq, hcm]
        rw [cmapVars_eq] at htr2
        exact htr2
    · intro c2 hc2 t ht
      rw [hmemR] at hc2
      exact hClean c2 hc2.1 t ht
    · rw [hvm]
      exact hD v0 hNone
  · rw [cleanupConstraint_skip s tr c hc]
    refine ⟨?_, hLive, hTrack, hClean, hNone⟩
    intro c2 hc2 t ht
    rcases hH1 c2 hc2 t ht with h1 | h1
    · exact Or.inl h1
    · right
      refine ⟨h1.1, ?_⟩
      rcases List.mem_cons.mp h1.2 with h2 | h2
      · subst h2
        exact absurd hc2 hc
      · exact h2

/-- Folding the cleanup over the pending set empties it while preserving
the removal invariant. -/
theorem cleanup_fold_rem (v0 : VarId) (V : List VarId) :
    ∀ (pending : List Constraint) (s : LimnSolver) (tr : List Constraint),
      RemState v0 V pending s →
      RemState v0 V [] (pending.foldl cleanupConstraint (s, tr)).1 := by
  intro pending
  induction pending with
  | nil =>
      intro s tr h
      exact h
  | cons c rest ih =>
      intro s tr h
      rw [List.foldl_cons]
      have hstep := cleanup_step_rem v0 V c rest s tr h
      exact ih (cleanupConstraint (s, tr) c).1
        (cleanupConstraint (s, tr) c).2 hstep

/-- Processing one boundary variable of `remove_widget` restores the full
index invariants and adds the variable to the set referenced by no live
constraint. -/
theorem removeWidgetVar_inv (p : LimnSolver × List Constraint) (v0 : VarId)
    (V : List VarId) (h1 : VarIndexed p.1) (h2 : SetsLive p.1)
    (h3 : SetsTracked p.1)
    (h4 : ∀ c ∈ p.1.solver.constraints, ∀ t ∈ c.terms, t.var ∉ V) :
    VarIndexed (removeWidgetVar p v0).1 ∧
    SetsLive (removeWidgetVar p v0).1 ∧
    SetsTracked (removeWidgetVar p v0).1 ∧
    (∀ c ∈ (removeWidgetVar p v0).1.solver.constraints, ∀ t ∈ c.terms,
      t.var ∉ v0 :: V) := by
  unfold removeWidgetVar
  cases hf : findA p.1.var_map v0 with
  | none =>
      simp only [hf]
      refine ⟨h1, h2, h3, ?_⟩
      intro c hc t ht
      rw [List.mem_cons]
      intro hor
      cases hor with
      | inl hv =>
          have hm := h1 c hc t ht
          rw [varMapSet_eq_vmSet] at hm
          unfold vmSet at hm
          rw [hv, hf] at hm
          simp at hm
      | inr hv => exact h4 c hc t ht hv
  | some cset =>
      simp only [hf]
      have hstart : RemState v0 V cset
          { p.1 with var_map := eraseA p.1.var_map v0 } := by
        refine ⟨?_, ?_, ?_, ?_, ?_⟩
        · intro c hc t ht
          by_cases hv : t.var = v0
          · right
            refine ⟨hv, ?_⟩
            have hm := h1 c hc t ht
            rw [varMapSet_eq_vmSet] at hm
            unfold vmSet at hm
            rw [hv, hf] at hm
            exact hm
          · left
            rw [varMapSet_eq_vmSet]
            show c ∈ vmSet (eraseA p.1.var_map v0) t.var
            unfold vmSet
            rw [findA_eraseA_ne _ _ _ (fun heq => hv heq.symm)]
            exact h1 c hc t ht
        · intro v c hc
          rw [varMapSet_eq_vmSet] at hc
          by_cases hv : v = v0
          · subst hv
            unfold vmSet at hc
            rw [show findA (eraseA p.1.var_map v) v = none from
              findA_eraseA_same _ _] at hc
            simp at hc
          · unfold vmSet at hc
            rw [findA_eraseA_ne _ _ _ (fun heq => hv heq.symm)] at hc
            exact h2 v c hc
        · intro v c hc
          rw [varMapSet_eq_vmSet] at hc
          by_cases hv : v = v0
          · subst hv
            unfold vmSet at hc
            rw [show findA (eraseA p.1.var_map v) v = none from
              findA_eraseA_same _ _] at hc
            simp at hc
          · unfold vmSet at hc
            rw [findA_eraseA_ne _ _ _ (fun heq => hv heq.symm)] at hc
            exact h3 v c hc
        · intro c hc t ht
          exact h4 c hc t ht
        · exact findA_eraseA_same _ _
      have hfold := cleanup_fold_rem v0 V cset
        { p.1 with var_map := eraseA p.1.var_map v0 } p.2 hstart
      obtain ⟨hH1, hLive, hTrack, hClean, hNone⟩ := hfold
      have hI1R : VarIndexed (cset.foldl cleanupConstraint
          ({ p.1 with var_map := eraseA p.1.var_map v0 }, p.2)).1 := by
        intro c hc t ht
        rcases hH1 c hc t ht with hh | hh
        · exact hh
        · exact absurd hh.2 (List.not_mem_nil c)
      refine ⟨hI1R, hLive, hTrack, ?_⟩
      intro c hc t ht
      rw [List.mem_cons]
      intro hor
      cases hor with
      | inl hv =>
          have hm := hI1R c hc t ht
          rw [varMapSet_eq_vmSet] at hm
          unfold vmSet at hm
          rw [hv, hNone] at hm
          simp at hm
      | inr hv => exact hClean c hc t ht hv

/-- Unfolds `remove_widget` into its four boundary-variable steps followed
by change detection. -/
theorem remove_widget_eq (s : LimnSolver) (vars : LayoutVars) :
    s.remove_widget vars = LimnSolver.check_changes
      (removeWidgetVar (removeWidgetVar (removeWidgetVar (removeWidgetVar
        (s, []) vars.left) vars.top) vars.right) vars.bottom).1 := by
  unfold LimnSolver.remove_widget LimnSolver.remove_widget_tr
  simp only [List.foldl_cons, List.foldl_nil]

/-- Claim C1: for every sequence of successful `add_widget` calls followed
by one `remove_widget` on a widget's `LayoutVars`, the resulting solver
contains no constraint whose terms reference any of the four boundary
variables of that widget, and no surviving variable's constraint-set index
in `var_map` contains a constraint that is no longer in the solver (no
dangling back-references). -/
theorem claim1_no_dangling (s : LimnSolver) (vars : LayoutVars)
    (hs : Reached s) :
    (∀ c ∈ (s.remove_widget vars).solver.constraints, ∀ t ∈ c.terms,
      t.var ≠ vars.left ∧ t.var ≠ vars.top ∧ t.var ≠ vars.right ∧
        t.var ≠ vars.bottom) ∧
    (∀ v : VarId, ∀ c ∈ (s.remove_widget vars).varMapSet v,
      c ∈ (s.remove_widget vars).solver.constraints) := by
  obtain ⟨h1, h2, h3⟩ := reached_inv s hs
  have hs1 := removeWidgetVar_inv (s, []) vars.left [] h1 h2 h3
    (fun c hc t ht => List.not_mem_nil t.var)
  have hs2 := removeWidgetVar_inv (removeWidgetVar (s, []) vars.left)
    vars.top [vars.left] hs1.1 hs1.2.1 hs1.2.2.1 hs1.2.2.2
  have hs3 := removeWidgetVar_inv (removeWidgetVar (removeWidgetVar (s, [])
    vars.left) vars.top) vars.right [vars.top, vars.left] hs2.1 hs2.2.1
    hs2.2.2.1 hs2.2.2.2
  have hs4 := removeWidgetVar_inv (removeWidgetVar (removeWidgetVar
    (removeWidgetVar (s, []) vars.left) vars.top) vars.right) vars.bottom
    [vars.right, vars.top, vars.left] hs3.1 hs3.2.1 hs3.2.2.1 hs3.2.2.2
  have hrw := remove_widget_eq s vars
  have hframe := check_changes_frame (removeWidgetVar (removeWidgetVar
    (removeWidgetVar (removeWidgetVar (s, []) vars.left) vars.top)
    vars.right) vars.bottom).1
  constructor
  · intro c hc t ht
    rw [hrw, hframe.2.2.2.1] at hc
    have hcl := hs4.2.2.2 c hc t ht
    simp only [List.mem_cons, List.not_mem_nil, or_false, not_or] at hcl
    exact ⟨hcl.2.2.2, hcl.2.2.1, hcl.2.1, hcl.1⟩
  · intro v c hc
    rw [hrw, varMapSet_eq_vmSet, hframe.2.1] at hc
    rw [hrw, hframe.2.2.2.1]
    exact hs4.2.1 v c hc

/-- Layout variables of the widget removed in the claim C1 witness. -/
def c1vars : LayoutVars :=
  { left := 1, top := 2, right := 3, bottom := 4, width := 5, height := 6 }

/-- Cross-widget constraint of the claim C1 witness, relating the widget's
`left` variable to the foreign variable 9. -/
def c1link : Constraint :=
  { cid := 20,
    terms := [{ var := 1, coeff := 1 }, { var := 9, coeff := -1 }],
    constant := 0, op := RelOp.le, strength := STRONG }

/-- Widget added and removed in the claim C1 witness. -/
def c1widget : Widget := { id := 7, layout := c1vars }

/-- Layout update of the claim C1 witness. -/
def c1lu : LayoutUpdate := { edit_vars := [], constraints := [c1link] }

/-- State reached by one successful `add_widget` call of the claim C1
witness. -/
def c1state : LimnSolver :=
  (LimnSolver.new.add_widget c1widget c1lu).getD LimnSolver.new

/-- Witness for claim C1 at the concrete reached state. -/
theorem claim1_no_dangling_witness :
    (∀ c ∈ (c1state.remove_widget c1vars).solver.constraints, ∀ t ∈ c.terms,
      t.var ≠ c1vars.left ∧ t.var ≠ c1vars.top ∧ t.var ≠ c1vars.right ∧
        t.var ≠ c1vars.bottom) ∧
    (∀ v : VarId, ∀ c ∈ (c1state.remove_widget c1vars).varMapSet v,
      c ∈ (c1state.remove_widget c1vars).solver.constraints) :=
  claim1_no_dangling c1state c1vars
    (Reached.step c1widget c1lu Reached.init (by rfl))
